import Mathlib

/-!
# fast_copy: adaptive file copy with a bounded worker batch

A shallow embedding of `fast_copy.c`.

* Part I models the operating-system calls the three transfer strategies make
  (`open`, `close`, `fstat`, `ftruncate`, `mmap`, `read`, `write`, `sendfile`)
  over an explicit `World`: a file system (path to byte content), a descriptor
  table, and an oracle that decides, call by call, whether a system call fails,
  succeeds in full, or moves only part of the bytes.
* Part II embeds `copy_file_sendfile`, `copy_file_mmap`, `copy_file_aio` and
  `copy_file` over that world.
* Part III embeds `thread_worker`, `traverse_and_copy` and `main` over the state
  of the control thread (`threads[]`, `thread_count`, `total_files_copied`). The
  traversal runs on a `Dir`, the tree as the loop sees it (what `S_ISDIR` and
  `opendir` answer, entry by entry); `as_seen` derives it from a `Disk`, the tree
  as it is on disk together with the outcome of each `stat`.
-/

namespace FastCopy

/-! ## Constants of the source -/

/-- Constant `#define BUFFER_SIZE 65536`. -/
def BUFFER_SIZE : Nat := 65536

/-- Constant `#define LARGE_FILE_SIZE (100 * 1024 * 1024)`. -/
def LARGE_FILE_SIZE : Nat := 100 * 1024 * 1024

/-- Constant `#define MAX_THREADS 8`. -/
def MAX_THREADS : Nat := 8

/-- Constant `PATH_MAX` of `<limits.h>` on Linux; the source uses it without defining it. -/
def PATH_MAX : Nat := 4096

/-! ## Part I: the world and its system calls -/

/-- File content: a sequence of byte values. -/
abbrev Bytes := List Nat

/-- What the environment decides for one system call.
`ok`: the call succeeds and moves every byte it was asked for and can move;
`fail`: the call fails (returns `-1`, or `MAP_FAILED`);
`upTo k`: the call succeeds but moves at most `k` bytes (a short read, write or
transfer); for calls that move no bytes it is the same as `ok`. -/
inductive Outcome
  | ok
  | fail
  | upTo (k : Nat)
deriving DecidableEq, Repr

/-- An open file description: the path it was opened on and its file offset. -/
structure OpenFile where
  path : String
  offset : Nat
deriving DecidableEq, Repr

/-- The state the transfer strategies act on. `fds` is the descriptor table of
the process, indexed by descriptor number (`none` is a free slot). `oracle` fixes
the outcome of the `clock`-th fallible system call. `log` is what `log_message`
has written so far. -/
structure World where
  files : String → Option Bytes
  fds : List (Option OpenFile)
  oracle : Nat → Outcome
  clock : Nat
  log : List String

/-- The lowest descriptor number that is not open. -/
def lowest_free : List (Option OpenFile) → Nat
  | [] => 0
  | none :: _ => 0
  | some _ :: rest => lowest_free rest + 1

/-- Put an open file description in the lowest free slot of the table. -/
def install (f : OpenFile) : List (Option OpenFile) → List (Option OpenFile)
  | [] => [some f]
  | none :: rest => some f :: rest
  | some g :: rest => some g :: install f rest

/-- The open file description a descriptor refers to, if any. -/
def fd_lookup (fds : List (Option OpenFile)) (fd : Int) : Option OpenFile :=
  if fd < 0 then none else (fds[fd.toNat]?).getD none

/-- The descriptor numbers that are open, in increasing order. -/
def open_fds (fds : List (Option OpenFile)) : List Nat :=
  (List.range fds.length).filter (fun i => ((fds[i]?).getD none).isSome)

/-- The bound an outcome puts on the number of bytes moved by a call that was
asked for `count` bytes. -/
def Outcome.limit (o : Outcome) (count : Nat) : Nat :=
  match o with
  | Outcome.upTo k => min k count
  | _ => count

/-- Content of a file after `data` is written at offset `off` (a gap past the
end of the file reads as zero bytes). -/
def pwrite (content : Bytes) (off : Nat) (data : Bytes) : Bytes :=
  (content ++ List.replicate (off - content.length) 0).take off ++ data
    ++ content.drop (off + data.length)

/-- Models `log_message(format, ...)`: the formatted line goes to the console and to the
log file; the model keeps the sequence of lines. -/
def log_message (w : World) (msg : String) : World :=
  { w with log := w.log ++ [msg] }

/-- Models `open(path, O_RDONLY)`: fails when the environment says so or when the file
does not exist; otherwise returns the lowest free descriptor, at offset 0. -/
def sys_open_rdonly (w : World) (path : String) : World × Int :=
  let w1 := { w with clock := w.clock + 1 }
  match w.oracle w.clock, w.files path with
  | Outcome.fail, _ => (w1, -1)
  | _, none => (w1, -1)
  | _, some _ =>
    ({ w1 with fds := install { path := path, offset := 0 } w.fds }, (lowest_free w.fds : Int))

/-- Models `open(path, O_WRONLY | O_CREAT | O_TRUNC, 0666)` (and the `O_RDWR` variant of
`copy_file_mmap`): fails when the environment says so; otherwise the file exists
with empty content afterwards and the lowest free descriptor is returned. -/
def sys_open_creat_trunc (w : World) (path : String) : World × Int :=
  let w1 := { w with clock := w.clock + 1 }
  match w.oracle w.clock with
  | Outcome.fail => (w1, -1)
  | _ =>
    ({ w1 with
        files := fun p => if p = path then some [] else w.files p,
        fds := install { path := path, offset := 0 } w.fds },
      (lowest_free w.fds : Int))

/-- Models `close(fd)`: the slot of `fd` becomes free. -/
def sys_close (w : World) (fd : Int) : World :=
  if fd < 0 then w else { w with fds := w.fds.set fd.toNat none }

/-- Models `stat(path, &st)`: returns `0` and the size, or `-1` when the environment
says so or the file does not exist. -/
def sys_stat (w : World) (path : String) : World × Int × Nat :=
  let w1 := { w with clock := w.clock + 1 }
  match w.oracle w.clock, w.files path with
  | Outcome.fail, _ => (w1, -1, 0)
  | _, none => (w1, -1, 0)
  | _, some content => (w1, 0, content.length)

/-- Models `fstat(fd, &st)` followed by reading `st.st_size`. The source does not check
the return value; on an open descriptor the call is taken to succeed. -/
def sys_fstat_size (w : World) (fd : Int) : Nat :=
  match fd_lookup w.fds fd with
  | some f => ((w.files f.path).getD []).length
  | none => 0

/-- Models `ftruncate(fd, length)`: the file is cut or extended with zero bytes to
`length`. The source does not check the return value; on an open descriptor the
call is taken to succeed. -/
def sys_ftruncate (w : World) (fd : Int) (length : Nat) : World :=
  match fd_lookup w.fds fd with
  | some f =>
    let content := (w.files f.path).getD []
    let resized := content.take length ++ List.replicate (length - content.length) 0
    { w with files := fun p => if p = f.path then some resized else w.files p }
  | none => w

/-- Models `mmap(NULL, length, prot, MAP_SHARED, fd, 0)`: `true` when a mapping is
returned, `false` for `MAP_FAILED`. A mapping of length 0 always fails
(`EINVAL`). -/
def sys_mmap (w : World) (fd : Int) (length : Nat) : World × Bool :=
  let w1 := { w with clock := w.clock + 1 }
  match w.oracle w.clock, fd_lookup w.fds fd with
  | Outcome.fail, _ => (w1, false)
  | _, none => (w1, false)
  | _, some _ => (w1, decide (0 < length))

/-- Models `memcpy(dest_map, src_map, n)` between two shared mappings of the files open
on `dest_fd` and `src_fd`: the first `n` bytes of the destination file become
the first `n` bytes of the source file. -/
def map_memcpy (w : World) (dest_fd src_fd : Int) (n : Nat) : World :=
  match fd_lookup w.fds dest_fd, fd_lookup w.fds src_fd with
  | some d, some s =>
    let src_content := (w.files s.path).getD []
    let dest_content := (w.files d.path).getD []
    { w with files := fun p =>
        if p = d.path then some (src_content.take n ++ dest_content.drop n) else w.files p }
  | _, _ => w

/-- Models `read(fd, buffer, count)`: returns the byte count (or `-1`) and the bytes put
in the buffer; the file offset advances by the count. -/
def sys_read (w : World) (fd : Int) (count : Nat) : World × Int × Bytes :=
  let w1 := { w with clock := w.clock + 1 }
  match w.oracle w.clock, fd_lookup w.fds fd with
  | Outcome.fail, _ => (w1, -1, [])
  | _, none => (w1, -1, [])
  | o, some f =>
    let data := (((w.files f.path).getD []).drop f.offset).take (o.limit count)
    ({ w1 with fds := w.fds.set fd.toNat (some { f with offset := f.offset + data.length }) },
      (data.length : Int), data)

/-- Models `write(fd, buffer, count)` with `buffer` holding exactly the `count` bytes to
write: returns the number of bytes written (or `-1`); they are written at the
file offset, which advances by that number. -/
def sys_write (w : World) (fd : Int) (buffer : Bytes) : World × Int :=
  let w1 := { w with clock := w.clock + 1 }
  match w.oracle w.clock, fd_lookup w.fds fd with
  | Outcome.fail, _ => (w1, -1)
  | _, none => (w1, -1)
  | o, some f =>
    let data := buffer.take (o.limit buffer.length)
    let content := (w.files f.path).getD []
    ({ w1 with
        files := fun p => if p = f.path then some (pwrite content f.offset data) else w.files p,
        fds := w.fds.set fd.toNat (some { f with offset := f.offset + data.length }) },
      (data.length : Int))

/-- Models `sendfile(out_fd, in_fd, &offset, count)`: returns the number of bytes
transferred (or `-1`) and the updated `offset`. The bytes are taken from the
input file at `offset` and written at the file offset of `out_fd`. -/
def sys_sendfile (w : World) (out_fd in_fd : Int) (offset count : Nat) : World × Int × Nat :=
  let w1 := { w with clock := w.clock + 1 }
  match w.oracle w.clock, fd_lookup w.fds in_fd, fd_lookup w.fds out_fd with
  | Outcome.fail, _, _ => (w1, -1, offset)
  | _, none, _ => (w1, -1, offset)
  | _, _, none => (w1, -1, offset)
  | o, some i, some f =>
    let data := (((w.files i.path).getD []).drop offset).take (o.limit count)
    let content := (w.files f.path).getD []
    ({ w1 with
        files := fun p => if p = f.path then some (pwrite content f.offset data) else w.files p,
        fds := w.fds.set out_fd.toNat (some { f with offset := f.offset + data.length }) },
      (data.length : Int), offset + data.length)

/-! ## Part II: the transfer strategies and the selector -/

/-- The `while (offset < src_stat.st_size)` loop of `copy_file_sendfile`. One
unit of fuel is one evaluation of the loop condition; `none` means the fuel ran
out. The result is the world, the final `offset`, and whether the loop ran to
its end (`true`) or left through the `sent < 0` branch (`false`). -/
def sendfile_loop (src_fd dest_fd : Int) (st_size : Nat) :
    Nat → World → Nat → Option (World × Nat × Bool)
  | 0, _, _ => none
  | fuel + 1, w, offset =>
    if offset < st_size then
      match sys_sendfile w dest_fd src_fd offset (st_size - offset) with
      | (w1, sent, offset1) =>
        if sent < 0 then some (w1, offset1, false)
        else sendfile_loop src_fd dest_fd st_size fuel w1 offset1
    else some (w, offset, true)

/-- Models `copy_file_sendfile(source, destination)`. -/
def copy_file_sendfile (fuel : Nat) (w : World) (source destination : String) :
    Option (World × Int) :=
  match sys_open_rdonly w source with
  | (w1, src_fd) =>
    match sys_open_creat_trunc w1 destination with
    | (w2, dest_fd) =>
      if src_fd < 0 ∨ dest_fd < 0 then
        some (log_message w2
          ("ERROR: Failed to open files: " ++ source ++ " -> " ++ destination ++ "\n"), 0)
      else
        let st_size := sys_fstat_size w2 src_fd
        match sendfile_loop src_fd dest_fd st_size fuel w2 0 with
        | none => none
        | some (w3, _, false) =>
          let w4 := log_message w3
            ("ERROR: sendfile failed: " ++ source ++ " -> " ++ destination ++ "\n")
          some (sys_close (sys_close w4 src_fd) dest_fd, 0)
        | some (w3, _, true) =>
          let w4 := sys_close (sys_close w3 src_fd) dest_fd
          some (log_message w4
            ("INFO: File copied using sendfile: " ++ source ++ " -> " ++ destination ++ "\n"), 1)

/-- Models `copy_file_mmap(source, destination)`. -/
def copy_file_mmap (w : World) (source destination : String) : World × Int :=
  match sys_open_rdonly w source with
  | (w1, src_fd) =>
    match sys_open_creat_trunc w1 destination with
    | (w2, dest_fd) =>
      if src_fd < 0 ∨ dest_fd < 0 then
        (log_message w2
          ("ERROR: Failed to open files: " ++ source ++ " -> " ++ destination ++ "\n"), 0)
      else
        let st_size := sys_fstat_size w2 src_fd
        let w3 := sys_ftruncate w2 dest_fd st_size
        match sys_mmap w3 src_fd st_size with
        | (w4, src_map) =>
          match sys_mmap w4 dest_fd st_size with
          | (w5, dest_map) =>
            if src_map = false ∨ dest_map = false then
              (log_message w5
                ("ERROR: mmap failed: " ++ source ++ " -> " ++ destination ++ "\n"), 0)
            else
              let w6 := map_memcpy w5 dest_fd src_fd st_size
              let w7 := sys_close (sys_close w6 src_fd) dest_fd
              (log_message w7
                ("INFO: File copied using mmap: " ++ source ++ " -> " ++ destination ++ "\n"), 1)

/-- The `while ((bytes = read(src_fd, buffer, BUFFER_SIZE)) > 0)` loop of
`copy_file_aio`. One unit of fuel is one `read`; `none` means the fuel ran out.
The result is the world and whether the loop ended because `read` returned a
value that is not positive (`true`) or left through the write check
(`false`). -/
def aio_loop (src_fd dest_fd : Int) : Nat → World → Option (World × Bool)
  | 0, _ => none
  | fuel + 1, w =>
    match sys_read w src_fd BUFFER_SIZE with
    | (w1, bytes, buffer) =>
      if bytes > 0 then
        match sys_write w1 dest_fd buffer with
        | (w2, written) =>
          if written ≠ bytes then some (w2, false)
          else aio_loop src_fd dest_fd fuel w2
      else some (w1, true)

/-- Models `copy_file_aio(source, destination)`. -/
def copy_file_aio (fuel : Nat) (w : World) (source destination : String) :
    Option (World × Int) :=
  match sys_open_rdonly w source with
  | (w1, src_fd) =>
    match sys_open_creat_trunc w1 destination with
    | (w2, dest_fd) =>
      if src_fd < 0 ∨ dest_fd < 0 then
        some (log_message w2
          ("ERROR: Failed to open files: " ++ source ++ " -> " ++ destination ++ "\n"), 0)
      else
        match aio_loop src_fd dest_fd fuel w2 with
        | none => none
        | some (w3, false) =>
          let w4 := log_message w3
            ("ERROR: Write failed: " ++ source ++ " -> " ++ destination ++ "\n")
          some (sys_close (sys_close w4 src_fd) dest_fd, 0)
        | some (w3, true) =>
          let w4 := sys_close (sys_close w3 src_fd) dest_fd
          some (log_message w4
            ("INFO: File copied using AIO (basic): " ++ source ++ " -> " ++ destination ++ "\n"),
            1)

/-- Models `copy_file(source, destination)`: the strategy selector. -/
def copy_file (fuel : Nat) (w : World) (source destination : String) : Option (World × Int) :=
  match sys_stat w source with
  | (w1, rc, st_size) =>
    if rc ≠ 0 then
      some (log_message w1 ("ERROR: Cannot stat file " ++ source ++ "\n"), 0)
    else if st_size > LARGE_FILE_SIZE then copy_file_sendfile fuel w1 source destination
    else if st_size > BUFFER_SIZE then (copy_file_mmap w1 source destination)
    else copy_file_aio fuel w1 source destination

/-- A world with one file `"a"` holding three bytes, no open descriptor, and an
oracle under which the third fallible call fails. -/
def world_read_error : World :=
  { files := fun p => if p = "a" then some [1, 2, 3] else none,
    fds := [],
    oracle := fun i => if i = 2 then Outcome.fail else Outcome.ok,
    clock := 0,
    log := [] }

/-! ## Part III: tasks, workers, the batch of threads and the traversal -/

/-- Structure `CopyTask`: the two path buffers handed to a worker. -/
structure CopyTask where
  source : String
  destination : String
deriving DecidableEq, Repr

/-- The source tree as the traversal meets it: the entries `readdir` yields for
one opened directory, in the order it yields them. `file` is an entry for which
`S_ISDIR` is false; `subdir` is an entry for which it is true, with whether
`opendir` succeeds on it and what its own stream yields. The names `"."` and
`".."` may occur like any other entry name. -/
inductive Dir
  | done : Dir
  | file (d_name : String) (rest : Dir) : Dir
  | subdir (d_name : String) (openable : Bool) (contents : Dir) (rest : Dir) : Dir
deriving DecidableEq, Repr

/-- One submission as seen right after the `else` branch of the traversal loop
has run: the index of `threads[]` that `pthread_create` wrote, the value of
`*thread_count` afterwards, and the number of workers created and not yet
joined afterwards. -/
structure Submission where
  index : Nat
  count_after : Nat
  in_flight_after : Nat
deriving DecidableEq, Repr

/-- State of the process as the control thread sees it.
`threads` is `pthread_t threads[MAX_THREADS]` (`none`: never written);
`running` are the workers created and not yet joined, with their identifier and
task. The remaining fields after `total_files_copied` record what happened:
`created` every task given to `pthread_create`, in order (the identifier of a
worker is its position there); `finished` the workers whose `thread_worker` has
run to its end; `dirs` the paths given to `mkdir`; `peak` the largest number of
workers that were running at once; `submissions` one record per submission. -/
structure Sched where
  threads : List (Option Nat)
  thread_count : Nat
  total_files_copied : Nat
  running : List (Nat × CopyTask)
  created : List CopyTask
  finished : List (Nat × CopyTask)
  dirs : List String
  peak : Nat
  submissions : List Submission
  log : List String

/-- Models `snprintf(buf, size, "%s/%s", a, b)`: at most `size - 1` characters of the
joined path are kept. A character of the model stands for one `char` of the
buffer. -/
def snprintf (size : Nat) (a b : String) : String :=
  String.mk ((a.data ++ '/' :: b.data).take (size - 1))

/-- Models `strncpy(dst, src, n)` read back as a string. -/
def strncpy (src : String) (n : Nat) : String :=
  String.mk (src.data.take n)

/-- Models `mkdir(destination, 0775)`; the return value is not checked. -/
def mkdir (s : Sched) (destination : String) : Sched :=
  { s with dirs := s.dirs ++ [destination] }

/-- Models `pthread_create(&threads[index], NULL, thread_worker, task)`. Writing outside
the array has no defined behaviour: `none`. The call itself is taken to succeed
(the source does not check it). -/
def pthread_create (s : Sched) (index : Nat) (task : CopyTask) : Option Sched :=
  if index < s.threads.length then
    some { s with
      threads := s.threads.set index (some s.created.length),
      running := s.running ++ [(s.created.length, task)],
      created := s.created ++ [task],
      peak := max s.peak (s.running.length + 1) }
  else none

/-- Models `thread_worker(arg)`. `copy_result tid task` stands for the call
`copy_file(task->source, task->destination)` made by worker `tid`: the value it
returns and the lines it logs. The increment is made under `count_mutex`. -/
def thread_worker (copy_result : Nat → CopyTask → Int × List String)
    (tid : Nat) (task : CopyTask) (s : Sched) : Sched :=
  let r := copy_result tid task
  let s1 := { s with log := s.log ++ r.2 }
  let s2 := if r.1 ≠ 0 then { s1 with total_files_copied := s1.total_files_copied + 1 } else s1
  { s2 with finished := s2.finished ++ [(tid, task)] }

/-- Find the running worker with identifier `tid` and take it out of the list. -/
def take_worker (tid : Nat) : List (Nat × CopyTask) → Option (CopyTask × List (Nat × CopyTask))
  | [] => none
  | (t, task) :: rest =>
    if t = tid then some (task, rest)
    else
      match take_worker tid rest with
      | none => none
      | some (found, rest1) => some (found, (t, task) :: rest1)

/-- Models `pthread_join(threads[index], NULL)`: returns once the worker has run to its
end, so the effects of its `thread_worker` are in place afterwards. Joining a
slot that was never written, or a worker that is not running, has no defined
behaviour: `none`. -/
def pthread_join (copy_result : Nat → CopyTask → Int × List String)
    (s : Sched) (index : Nat) : Option Sched :=
  match s.threads[index]? with
  | some (some tid) =>
    match take_worker tid s.running with
    | some (task, rest) => some (thread_worker copy_result tid task { s with running := rest })
    | none => none
  | _ => none

/-- Models `for (i = first; i < first + n; i++) pthread_join(threads[i], NULL);`. -/
def join_threads (copy_result : Nat → CopyTask → Int × List String) :
    Nat → Nat → Sched → Option Sched
  | 0, _, s => some s
  | n + 1, i, s =>
    match pthread_join copy_result s i with
    | none => none
    | some s1 => join_threads copy_result n (i + 1) s1

/-- The `else` branch of the loop of `traverse_and_copy`: build the task, create
the worker in `threads[(*thread_count)++]`, and drain the batch when it is
full. -/
def submit (copy_result : Nat → CopyTask → Int × List String)
    (s : Sched) (src_path dest_path : String) : Option Sched :=
  let task : CopyTask :=
    { source := strncpy src_path PATH_MAX, destination := strncpy dest_path PATH_MAX }
  match pthread_create s s.thread_count task with
  | none => none
  | some s1 =>
    let s2 := { s1 with thread_count := s1.thread_count + 1 }
    let s4 :=
      if s2.thread_count = MAX_THREADS then
        match join_threads copy_result MAX_THREADS 0 s2 with
        | none => none
        | some s3 => some { s3 with thread_count := 0 }
      else some s2
    match s4 with
    | none => none
    | some s5 =>
      some { s5 with submissions := s5.submissions ++
        [{ index := s.thread_count, count_after := s5.thread_count,
           in_flight_after := s5.running.length }] }

/-- The `while ((entry = readdir(dir)) != NULL)` loop of `traverse_and_copy`
with `source` and `destination` the arguments of the enclosing call. In the
`subdir` case the recursive call `traverse_and_copy(src_path, dest_path, ...)`
is written out: it returns at once when `opendir` fails and otherwise calls
`mkdir` and runs the loop over the entries of the subdirectory. -/
def readdir_loop (copy_result : Nat → CopyTask → Int × List String) :
    String → String → Dir → Sched → Option Sched
  | _, _, Dir.done, s => some s
  | source, destination, Dir.file d_name rest, s =>
    if d_name = "." ∨ d_name = ".." then readdir_loop copy_result source destination rest s
    else
      match submit copy_result s (snprintf PATH_MAX source d_name)
          (snprintf PATH_MAX destination d_name) with
      | none => none
      | some s1 => readdir_loop copy_result source destination rest s1
  | source, destination, Dir.subdir d_name openable contents rest, s =>
    if d_name = "." ∨ d_name = ".." then readdir_loop copy_result source destination rest s
    else
      let src_path := snprintf PATH_MAX source d_name
      let dest_path := snprintf PATH_MAX destination d_name
      let inner :=
        if openable = false then some s
        else readdir_loop copy_result src_path dest_path contents (mkdir s dest_path)
      match inner with
      | none => none
      | some s1 => readdir_loop copy_result source destination rest s1

/-- Models `traverse_and_copy(source, destination, threads, thread_count)`, where
`openable` says whether `opendir(source)` succeeds and `d` is what the opened
directory yields. -/
def traverse_and_copy (copy_result : Nat → CopyTask → Int × List String)
    (source destination : String) (openable : Bool) (d : Dir) (s : Sched) : Option Sched :=
  if openable = false then some s
  else readdir_loop copy_result source destination d (mkdir s destination)

/-- State of `main` after `thread_count = 0` and the first `log_message`. -/
def main_start (source destination : String) : Sched :=
  { threads := List.replicate MAX_THREADS none,
    thread_count := 0,
    total_files_copied := 0,
    running := [],
    created := [],
    finished := [],
    dirs := [],
    peak := 0,
    submissions := [],
    log := ["Starting copy process: " ++ source ++ " -> " ++ destination ++ "\n"] }

/-- Models `main` with `argc == 3`, after `setup_logging`: the traversal, the final
joins, and the two closing log lines. The value of `total_files_copied` that is
logged is the one in the state returned. -/
def main (copy_result : Nat → CopyTask → Int × List String)
    (source destination : String) (openable : Bool) (d : Dir) : Option Sched :=
  match traverse_and_copy copy_result source destination openable d
      (main_start source destination) with
  | none => none
  | some s1 =>
    match join_threads copy_result s1.thread_count 0 s1 with
    | none => none
    | some s2 =>
      some { s2 with log := s2.log ++
        ["Total files copied: " ++ toString s2.total_files_copied ++ "\n",
         "Copy process completed.\n"] }

/-- A tree with nine files at the top and a subdirectory holding a tenth. -/
def tree_ten : Dir :=
  Dir.file "." (Dir.file ".." (Dir.file "f1" (Dir.file "f2" (Dir.file "f3" (Dir.file "f4"
    (Dir.subdir "sub" true (Dir.file "g" Dir.done)
      (Dir.file "f5" (Dir.file "f6" (Dir.file "f7" (Dir.file "f8" (Dir.file "f9"
        Dir.done)))))))))))

/-- Whether the copy made by a worker returned a non-zero value. -/
def succeeded (copy_result : Nat → CopyTask → Int × List String) (p : Nat × CopyTask) : Bool :=
  decide ((copy_result p.1 p.2).1 ≠ 0)

/-- What holds of the state of the control thread between two steps of the
traversal. -/
structure Sched.Inv (copy_result : Nat → CopyTask → Int × List String) (s : Sched) : Prop where
  len : s.threads.length = MAX_THREADS
  count_lt : s.thread_count < MAX_THREADS
  enum : s.finished ++ s.running = s.created.enum
  run_ids : s.running.map Prod.fst = List.range' s.finished.length s.thread_count
  slots : ∀ j, j < s.thread_count → s.threads[j]? = some (some (s.finished.length + j))
  peak_le : s.peak ≤ MAX_THREADS
  total : s.total_files_copied = (s.finished.filter (succeeded copy_result)).length
  subs : ∀ x ∈ s.submissions, x.index < MAX_THREADS ∧ x.count_after < MAX_THREADS ∧
    x.in_flight_after = x.count_after ∧ (x.index + 1 = MAX_THREADS → x.count_after = 0) ∧
    (x.index + 1 < MAX_THREADS → x.count_after = x.index + 1)
  subs_len : s.submissions.length = s.created.length

/-- The spec's joined path: the two parts with a single `/` between them. -/
def join_path (a b : String) : String := a ++ "/" ++ b

/-- Whether `opendir` succeeds on every directory of the tree. -/
def all_openable : Dir → Bool
  | Dir.done => true
  | Dir.file _ rest => all_openable rest
  | Dir.subdir _ openable contents rest => openable && all_openable contents && all_openable rest

/-- Relative paths of the non-directory entries of a tree, the entries `"."` and
`".."` left out, in the order of a depth-first walk. -/
def rel_files : Dir → List String
  | Dir.done => []
  | Dir.file d_name rest =>
    if d_name = "." ∨ d_name = ".." then rel_files rest else d_name :: rel_files rest
  | Dir.subdir d_name _ contents rest =>
    if d_name = "." ∨ d_name = ".." then rel_files rest
    else (rel_files contents).map (join_path d_name) ++ rel_files rest

/-- Relative paths of the directories below the root of a tree, the entries
`"."` and `".."` left out, in the order of a depth-first walk. -/
def rel_dirs : Dir → List String
  | Dir.done => []
  | Dir.file _ rest => rel_dirs rest
  | Dir.subdir d_name _ contents rest =>
    if d_name = "." ∨ d_name = ".." then rel_dirs rest
    else d_name :: (rel_dirs contents).map (join_path d_name) ++ rel_dirs rest

/-- The task the spec expects for the non-directory entry at relative path `p`. -/
def expected_task (src dst p : String) : CopyTask :=
  { source := join_path src p, destination := join_path dst p }

/-- Every joined path of the tree, on the source and on the destination side, is
shorter than `PATH_MAX`. -/
def paths_fit (src dst : String) (d : Dir) : Prop :=
  ∀ p ∈ rel_files d ++ rel_dirs d,
    (join_path src p).length < PATH_MAX ∧ (join_path dst p).length < PATH_MAX

instance (src dst : String) (d : Dir) : Decidable (paths_fit src dst d) := by
  unfold paths_fit
  infer_instance

/-- The workers of `order` run their `thread_worker` to the end one after the
other, in that order: one possible order in which they take `count_mutex`. -/
def run_workers (copy_result : Nat → CopyTask → Int × List String)
    (order : List (Nat × CopyTask)) (s : Sched) : Sched :=
  order.foldl (fun acc p => thread_worker copy_result p.1 p.2 acc) s

/-- An assignment of outcomes: the copies of the workers with an even identifier
return 1, the others return 0; nothing is logged. -/
def even_succeeds (tid : Nat) (_ : CopyTask) : Int × List String :=
  (if tid % 2 = 0 then 1 else 0, [])

/-- A readable directory with a file, a subdirectory that cannot be opened (and
what it would hold), and another file after it. -/
def tree_locked : Dir :=
  Dir.file "a" (Dir.subdir "locked" false (Dir.file "x" Dir.done) (Dir.file "b" Dir.done))

/-- The tree without its directories that cannot be opened. -/
def prune : Dir → Dir
  | Dir.done => Dir.done
  | Dir.file d_name rest => Dir.file d_name (prune rest)
  | Dir.subdir d_name openable contents rest =>
    if openable = false then prune rest
    else Dir.subdir d_name openable (prune contents) (prune rest)

/-- A world in which every call succeeds in full, with a three-byte source `"a"`
and a longer stale file at `"b"`. -/
def world_all_ok : World :=
  { files := fun p => if p = "a" then some [1, 2, 3] else if p = "b" then some [9, 9, 9, 9, 9] else none,
    fds := [],
    oracle := fun _ => Outcome.ok,
    clock := 0,
    log := [] }

/-- A world whose file `"a"` holds 65537 bytes; every call succeeds. -/
def world_medium : World :=
  { files := fun p => if p = "a" then some (List.replicate 65537 0) else none,
    fds := [],
    oracle := fun _ => Outcome.ok,
    clock := 0,
    log := [] }

/-- A world with a five-byte source `"a"` in which the first two `sendfile` calls
are short (two bytes, then one) and every other call succeeds in full. -/
def world_short_sends : World :=
  { files := fun p => if p = "a" then some [1, 2, 3, 4, 5] else none,
    fds := [],
    oracle := fun i => if i = 2 then Outcome.upTo 2 else if i = 3 then Outcome.upTo 1
      else Outcome.ok,
    clock := 0,
    log := [] }

/-- A world with a three-byte source `"a"` in which the first `read` returns two
bytes, the `write` succeeds, and the second `read` fails. -/
def world_read_error_midway : World :=
  { files := fun p => if p = "a" then some [1, 2, 3] else none,
    fds := [],
    oracle := fun i => if i = 2 then Outcome.upTo 2 else if i = 4 then Outcome.fail
      else Outcome.ok,
    clock := 0,
    log := [] }

/-- A world with a source `"a"` in which the second call, the `open` of the
destination, fails. -/
def world_dest_open_fails : World :=
  { files := fun p => if p = "a" then some [1, 2, 3] else none,
    fds := [],
    oracle := fun i => if i = 1 then Outcome.fail else Outcome.ok,
    clock := 0,
    log := [] }

/-- A world with a source `"a"` in which both opens succeed and the third call,
the first `mmap`, fails. -/
def world_mmap_fails : World :=
  { files := fun p => if p = "a" then some [1, 2, 3] else none,
    fds := [],
    oracle := fun i => if i = 2 then Outcome.fail else Outcome.ok,
    clock := 0,
    log := [] }

/-- What is on disk in one directory of the source tree, in the order `readdir`
yields it. `other` is an entry that is not a directory (a regular file, a
symbolic link that leads nowhere, ...); `directory` is one that is, with whether
`opendir` succeeds on it and what it holds. `stat_ok` says whether `stat` on the
joined path of the entry succeeds. -/
inductive Disk
  | done : Disk
  | other (d_name : String) (stat_ok : Bool) (rest : Disk) : Disk
  | directory (d_name : String) (stat_ok : Bool) (openable : Bool) (contents : Disk)
      (rest : Disk) : Disk
deriving DecidableEq, Repr

/-- The lines `struct stat info; stat(src_path, &info); if (S_ISDIR(info.st_mode))`
of the loop, entry by entry: what the traversal makes of a directory on disk.
The return value of `stat` is not checked. When `stat` fails the buffer is left
as it was, so `S_ISDIR` reads what the last successful `stat` of this call of
`traverse_and_copy` put there (`info`), and before any such `stat` what the
buffer happened to hold (`fresh`). The entries `"."` and `".."` are passed over
before `stat` is called. An entry that is not a directory and is taken for one
cannot be opened. -/
def as_seen (fresh : Bool) : Bool → Disk → Dir
  | _, Disk.done => Dir.done
  | info, Disk.other d_name stat_ok rest =>
    if d_name = "." ∨ d_name = ".." then Dir.file d_name (as_seen fresh info rest)
    else if stat_ok = true then Dir.file d_name (as_seen fresh false rest)
    else if info = true then Dir.subdir d_name false Dir.done (as_seen fresh info rest)
    else Dir.file d_name (as_seen fresh info rest)
  | info, Disk.directory d_name stat_ok openable contents rest =>
    if d_name = "." ∨ d_name = ".." then
      Dir.subdir d_name openable (as_seen fresh fresh contents) (as_seen fresh info rest)
    else if stat_ok = true then
      Dir.subdir d_name openable (as_seen fresh fresh contents) (as_seen fresh true rest)
    else if info = true then
      Dir.subdir d_name openable (as_seen fresh fresh contents) (as_seen fresh info rest)
    else Dir.file d_name (as_seen fresh info rest)

/-- Whether `stat` succeeds on every entry of the tree on disk. -/
def disk_stat_ok : Disk → Bool
  | Disk.done => true
  | Disk.other _ stat_ok rest => stat_ok && disk_stat_ok rest
  | Disk.directory _ stat_ok _ contents rest =>
    stat_ok && disk_stat_ok contents && disk_stat_ok rest

/-- Whether every directory of the tree on disk can be opened. -/
def disk_all_openable : Disk → Bool
  | Disk.done => true
  | Disk.other _ _ rest => disk_all_openable rest
  | Disk.directory _ _ openable contents rest =>
    openable && disk_all_openable contents && disk_all_openable rest

/-- Relative paths of the entries on disk that are not directories, the entries
`"."` and `".."` left out, in the order of a depth-first walk. -/
def disk_rel_files : Disk → List String
  | Disk.done => []
  | Disk.other d_name _ rest =>
    if d_name = "." ∨ d_name = ".." then disk_rel_files rest else d_name :: disk_rel_files rest
  | Disk.directory d_name _ _ contents rest =>
    if d_name = "." ∨ d_name = ".." then disk_rel_files rest
    else (disk_rel_files contents).map (join_path d_name) ++ disk_rel_files rest

/-- Relative paths of the directories on disk below the root, the entries `"."`
and `".."` left out, in the order of a depth-first walk. -/
def disk_rel_dirs : Disk → List String
  | Disk.done => []
  | Disk.other _ _ rest => disk_rel_dirs rest
  | Disk.directory d_name _ _ contents rest =>
    if d_name = "." ∨ d_name = ".." then disk_rel_dirs rest
    else d_name :: (disk_rel_dirs contents).map (join_path d_name) ++ disk_rel_dirs rest

/-- Every joined path of the tree on disk, on the source and on the destination
side, is shorter than `PATH_MAX`. -/
def disk_paths_fit (src dst : String) (disk : Disk) : Prop :=
  ∀ p ∈ disk_rel_files disk ++ disk_rel_dirs disk,
    (join_path src p).length < PATH_MAX ∧ (join_path dst p).length < PATH_MAX

instance (src dst : String) (disk : Disk) : Decidable (disk_paths_fit src dst disk) := by
  unfold disk_paths_fit
  infer_instance

/-- A source directory holding an empty directory `d4` and, after it, a symbolic
link `l` that leads nowhere: `stat` succeeds on `d4` and fails on `l`. -/
def disk_dangling : Disk :=
  Disk.directory "d4" true true Disk.done (Disk.other "l" false Disk.done)

/-! ## Theorems -/

/-! ### The batch of threads -/

theorem take_worker_head (tid : Nat) (task : CopyTask) (rest : List (Nat × CopyTask)) :
    take_worker tid ((tid, task) :: rest) = some (task, rest) := by
  simp [take_worker]

theorem thread_worker_fields (copy_result : Nat → CopyTask → Int × List String)
    (tid : Nat) (task : CopyTask) (s : Sched) :
    (thread_worker copy_result tid task s).threads = s.threads ∧
    (thread_worker copy_result tid task s).thread_count = s.thread_count ∧
    (thread_worker copy_result tid task s).running = s.running ∧
    (thread_worker copy_result tid task s).created = s.created ∧
    (thread_worker copy_result tid task s).dirs = s.dirs ∧
    (thread_worker copy_result tid task s).peak = s.peak ∧
    (thread_worker copy_result tid task s).submissions = s.submissions ∧
    (thread_worker copy_result tid task s).finished = s.finished ++ [(tid, task)] ∧
    (thread_worker copy_result tid task s).total_files_copied =
      s.total_files_copied + ([(tid, task)].filter (succeeded copy_result)).length := by
  unfold thread_worker
  by_cases h : (copy_result tid task).1 = 0
  · simp [h, succeeded]
  · simp [h, succeeded]

theorem join_threads_spec (copy_result : Nat → CopyTask → Int × List String) :
    ∀ (k i b : Nat) (s : Sched),
      (∀ j, j < k → s.threads[i + j]? = some (some (b + j))) →
      s.running.map Prod.fst = List.range' b k →
      ∃ s', join_threads copy_result k i s = some s' ∧
        s'.running = [] ∧ s'.finished = s.finished ++ s.running ∧
        s'.threads = s.threads ∧ s'.thread_count = s.thread_count ∧
        s'.created = s.created ∧ s'.dirs = s.dirs ∧ s'.peak = s.peak ∧
        s'.submissions = s.submissions ∧
        s'.total_files_copied =
          s.total_files_copied + (s.running.filter (succeeded copy_result)).length := by
  intro k
  induction k with
  | zero =>
    intro i b s _ hrun
    have hnil : s.running = [] := by simpa using hrun
    exact ⟨s, rfl, hnil, by simp [hnil], rfl, rfl, rfl, rfl, rfl, rfl, by simp [hnil]⟩
  | succ k ih =>
    intro i b s hslots hrun
    rw [List.range'_succ] at hrun
    match hr : s.running, hrun with
    | [], hrun => simp at hrun
    | (t, task) :: rest, hrun =>
      simp only [List.map_cons, List.cons.injEq] at hrun
      obtain ⟨ht, hrest⟩ := hrun
      subst ht
      have h0 : s.threads[i]? = some (some t) := by simpa using hslots 0 (Nat.succ_pos k)
      obtain ⟨f1, f2, f3, f4, f5, f6, f7, f8, f9⟩ :=
        thread_worker_fields copy_result t task { s with running := rest }
      have hjoin : pthread_join copy_result s i =
          some (thread_worker copy_result t task { s with running := rest }) := by
        simp [pthread_join, h0, hr, take_worker_head]
      obtain ⟨s', hs', g1, g2, g3, g4, g5, g6, g7, g8, g9⟩ :=
        ih (i + 1) (t + 1) (thread_worker copy_result t task { s with running := rest })
          (by
            intro j hj
            rw [f1]
            have := hslots (j + 1) (Nat.succ_lt_succ hj)
            simpa [Nat.add_assoc, Nat.add_comm 1 j] using this)
          (by rw [f3]; exact hrest)
      refine ⟨s', ?_, g1, ?_, ?_, ?_, ?_, ?_, ?_, ?_, ?_⟩
      · simp [join_threads, hjoin, hs']
      · rw [g2, f8, f3]; simp
      · rw [g3, f1]
      · rw [g4, f2]
      · rw [g5, f4]
      · rw [g6, f5]
      · rw [g7, f6]
      · rw [g8, f7]
      · rw [g9, f9, f3]
        simp only [List.filter_cons, List.filter_nil]
        by_cases hs : succeeded copy_result (t, task) = true
        · simp [hs]; omega
        · simp [hs]

theorem Sched.Inv.created_length {copy_result : Nat → CopyTask → Int × List String} {s : Sched}
    (h : Sched.Inv copy_result s) :
    s.created.length = s.finished.length + s.thread_count ∧ s.running.length = s.thread_count := by
  have h1 := congrArg List.length h.enum
  have h2 := congrArg List.length h.run_ids
  simp at h1 h2
  omega

theorem submit_spec (copy_result : Nat → CopyTask → Int × List String) (s : Sched)
    (src_path dest_path : String) (h : Sched.Inv copy_result s) :
    ∃ s', submit copy_result s src_path dest_path = some s' ∧ Sched.Inv copy_result s' ∧
      s'.created = s.created ++
        [{ source := strncpy src_path PATH_MAX, destination := strncpy dest_path PATH_MAX }] ∧
      s'.dirs = s.dirs := by
  obtain ⟨hlen, hrunlen⟩ := h.created_length
  have hcl := h.count_lt
  have hM : MAX_THREADS = 8 := rfl
  have hidx : s.thread_count < s.threads.length := by rw [h.len]; exact hcl
  generalize htask : CopyTask.mk (strncpy src_path PATH_MAX) (strncpy dest_path PATH_MAX) = task
  have henum : s.finished ++ (s.running ++ [(s.created.length, task)])
      = (s.created ++ [task]).enum := by
    rw [List.enum_append, List.enumFrom_singleton, ← h.enum, List.append_assoc]
  have hids : (s.running ++ [(s.created.length, task)]).map Prod.fst
      = List.range' s.finished.length (s.thread_count + 1) := by
    rw [List.range'_concat, List.map_append, h.run_ids, hlen]
    simp
  have hslots : ∀ j, j < s.thread_count + 1 →
      (s.threads.set s.thread_count (some s.created.length))[j]?
        = some (some (s.finished.length + j)) := by
    intro j hj
    by_cases hjc : j = s.thread_count
    · subst hjc
      rw [List.getElem?_set_self hidx, hlen]
    · rw [List.getElem?_set_ne (Ne.symm hjc)]
      exact h.slots j (by omega)
  by_cases hfull : s.thread_count + 1 = MAX_THREADS
  · obtain ⟨s3, hs3, g1, g2, g3, g4, g5, g6, g7, g8, g9⟩ :=
      join_threads_spec copy_result MAX_THREADS 0 s.finished.length
        { s with
          threads := s.threads.set s.thread_count (some s.created.length),
          running := s.running ++ [(s.created.length, task)],
          created := s.created ++ [task],
          peak := max s.peak (s.running.length + 1),
          thread_count := s.thread_count + 1 }
        (by
          intro j hj
          simp only [Nat.zero_add]
          exact hslots j (by omega))
        (by rw [← hfull]; exact hids)
    simp only at g2 g3 g4 g5 g6 g7 g8 g9
    rw [hfull] at hs3
    refine ⟨{ s3 with thread_count := 0, submissions := s3.submissions ++
        [{ index := s.thread_count, count_after := 0, in_flight_after := s3.running.length }] },
      ?_, ?_, ?_, ?_⟩
    · simp [submit, pthread_create, hidx, htask, hfull, hs3]
    · refine ⟨?_, ?_, ?_, ?_, ?_, ?_, ?_, ?_, ?_⟩
      · simp [g3, h.len]
      · simp [MAX_THREADS]
      · simp [g1, g2, g5, henum]
      · simp [g1]
      · intro j hj
        simp at hj
      · simp only [g7]
        exact max_le h.peak_le (by omega)
      · simp only [g9, g2, h.total, List.filter_append, List.length_append]
      · intro x hx
        simp only [g8, List.mem_append, List.mem_singleton] at hx
        rcases hx with hx | hx
        · exact h.subs x hx
        · subst hx
          dsimp only
          refine ⟨by omega, by omega, by simp [g1], fun _ => rfl, fun hlt => by omega⟩
      · simp [g8, g5, h.subs_len]
    · simp [g5]
    · simp [g6]
  · refine ⟨{ s with
        threads := s.threads.set s.thread_count (some s.created.length),
        running := s.running ++ [(s.created.length, task)],
        created := s.created ++ [task],
        peak := max s.peak (s.running.length + 1),
        thread_count := s.thread_count + 1,
        submissions := s.submissions ++
          [{ index := s.thread_count, count_after := s.thread_count + 1,
             in_flight_after := (s.running ++ [(s.created.length, task)]).length }] },
      ?_, ?_, ?_, ?_⟩
    · simp [submit, pthread_create, hidx, htask, hfull]
    · refine ⟨?_, ?_, ?_, ?_, ?_, ?_, ?_, ?_, ?_⟩
      · simp [h.len]
      · show s.thread_count + 1 < MAX_THREADS
        omega
      · exact henum
      · exact hids
      · exact hslots
      · exact max_le h.peak_le (by omega)
      · exact h.total
      · intro x hx
        simp only [List.mem_append, List.mem_singleton] at hx
        rcases hx with hx | hx
        · exact h.subs x hx
        · subst hx
          dsimp only
          refine ⟨by omega, by omega, by simp [hrunlen], fun heq => by omega, fun _ => rfl⟩
      · simp [h.subs_len]
    · rfl
    · rfl

theorem mkdir_inv {copy_result : Nat → CopyTask → Int × List String} {s : Sched}
    (h : Sched.Inv copy_result s) (p : String) : Sched.Inv copy_result (mkdir s p) :=
  ⟨h.len, h.count_lt, h.enum, h.run_ids, h.slots, h.peak_le, h.total, h.subs, h.subs_len⟩

theorem main_start_inv (copy_result : Nat → CopyTask → Int × List String)
    (source destination : String) : Sched.Inv copy_result (main_start source destination) := by
  refine ⟨?_, ?_, ?_, ?_, ?_, ?_, ?_, ?_, ?_⟩ <;> simp [main_start, MAX_THREADS]

theorem readdir_loop_inv (copy_result : Nat → CopyTask → Int × List String) :
    ∀ (d : Dir) (source destination : String) (s : Sched), Sched.Inv copy_result s →
      ∃ s', readdir_loop copy_result source destination d s = some s' ∧
        Sched.Inv copy_result s' := by
  intro d
  induction d with
  | done => intro source destination s h; exact ⟨s, rfl, h⟩
  | file d_name rest ih =>
    intro source destination s h
    by_cases hskip : d_name = "." ∨ d_name = ".."
    · simpa [readdir_loop, hskip] using ih source destination s h
    · obtain ⟨s1, hs1, h1, _, _⟩ := submit_spec copy_result s
        (snprintf PATH_MAX source d_name) (snprintf PATH_MAX destination d_name) h
      obtain ⟨s2, hs2, h2⟩ := ih source destination s1 h1
      exact ⟨s2, by simp [readdir_loop, hskip, hs1, hs2], h2⟩
  | subdir d_name openable contents rest ihc ihr =>
    intro source destination s h
    by_cases hskip : d_name = "." ∨ d_name = ".."
    · simpa [readdir_loop, hskip] using ihr source destination s h
    · cases openable with
      | false =>
        obtain ⟨s2, hs2, h2⟩ := ihr source destination s h
        exact ⟨s2, by simp [readdir_loop, hskip, hs2], h2⟩
      | true =>
        obtain ⟨s1, hs1, h1⟩ := ihc (snprintf PATH_MAX source d_name)
          (snprintf PATH_MAX destination d_name) (mkdir s (snprintf PATH_MAX destination d_name))
          (mkdir_inv h _)
        obtain ⟨s2, hs2, h2⟩ := ihr source destination s1 h1
        exact ⟨s2, by simp [readdir_loop, hskip, hs1, hs2], h2⟩

/-- The `subdir` case of the loop is the recursive call of `traverse_and_copy` on
the two joined paths, followed by the rest of the loop. -/
theorem readdir_loop_subdir (copy_result : Nat → CopyTask → Int × List String)
    (source destination d_name : String) (openable : Bool) (contents rest : Dir) (s : Sched)
    (h : ¬ (d_name = "." ∨ d_name = "..")) :
    readdir_loop copy_result source destination (Dir.subdir d_name openable contents rest) s =
      match traverse_and_copy copy_result (snprintf PATH_MAX source d_name)
          (snprintf PATH_MAX destination d_name) openable contents s with
      | none => none
      | some s1 => readdir_loop copy_result source destination rest s1 := by
  simp only [readdir_loop, traverse_and_copy, h, if_false]

theorem traverse_and_copy_inv (copy_result : Nat → CopyTask → Int × List String)
    (source destination : String) (openable : Bool) (d : Dir) (s : Sched)
    (h : Sched.Inv copy_result s) :
    ∃ s', traverse_and_copy copy_result source destination openable d s = some s' ∧
      Sched.Inv copy_result s' := by
  cases openable with
  | false => exact ⟨s, by simp [traverse_and_copy], h⟩
  | true =>
    obtain ⟨s1, hs1, h1⟩ := readdir_loop_inv copy_result d source destination
      (mkdir s destination) (mkdir_inv h _)
    exact ⟨s1, by simp [traverse_and_copy, hs1], h1⟩

/-! ### Path buffers -/

theorem join_path_assoc (a b c : String) :
    join_path (join_path a b) c = join_path a (join_path b c) := by
  simp [join_path, String.append_assoc]

theorem snprintf_fit (a b : String) (h : (join_path a b).length < PATH_MAX) :
    snprintf PATH_MAX a b = join_path a b := by
  apply String.ext
  have hlen : (a.data ++ '/' :: b.data).length ≤ PATH_MAX - 1 := by
    have : (join_path a b).length = (a.data ++ '/' :: b.data).length := by
      show ((a ++ "/" ++ b).data).length = _
      rw [String.data_append, String.data_append]
      show (a.data ++ ['/'] ++ b.data).length = _
      simp
    omega
  show (a.data ++ '/' :: b.data).take (PATH_MAX - 1) = (a ++ "/" ++ b).data
  rw [List.take_of_length_le hlen, String.data_append, String.data_append]
  show _ = a.data ++ ['/'] ++ b.data
  simp

theorem strncpy_fit (a : String) (h : a.length < PATH_MAX) : strncpy a PATH_MAX = a := by
  apply String.ext
  have hlen : a.data.length ≤ PATH_MAX := by
    have : a.length = a.data.length := rfl
    omega
  show a.data.take PATH_MAX = a.data
  exact List.take_of_length_le hlen

/-! ### The traversal on a tree whose paths fit -/

theorem readdir_loop_fit (copy_result : Nat → CopyTask → Int × List String) :
    ∀ (d : Dir) (src dst : String) (s : Sched), Sched.Inv copy_result s →
      all_openable d = true → paths_fit src dst d →
      ∃ s', readdir_loop copy_result src dst d s = some s' ∧ Sched.Inv copy_result s' ∧
        s'.created = s.created ++ (rel_files d).map (expected_task src dst) ∧
        s'.dirs = s.dirs ++ (rel_dirs d).map (join_path dst) := by
  intro d
  induction d with
  | done => intro src dst s h _ _; exact ⟨s, rfl, h, by simp [rel_files], by simp [rel_dirs]⟩
  | file d_name rest ih =>
    intro src dst s h hopen hfit
    have hopen1 : all_openable rest = true := by simpa [all_openable] using hopen
    by_cases hskip : d_name = "." ∨ d_name = ".."
    · have hfit1 : paths_fit src dst rest := by
        intro p hp
        exact hfit p (by simpa [rel_files, rel_dirs, hskip] using hp)
      simpa [readdir_loop, rel_files, rel_dirs, hskip] using ih src dst s h hopen1 hfit1
    · have hfit1 : paths_fit src dst rest := by
        intro p hp
        apply hfit p
        simp only [rel_files, rel_dirs, hskip, if_false, List.mem_append, List.mem_cons] at hp ⊢
        tauto
      obtain ⟨hs, hd⟩ := hfit d_name (by simp [rel_files, hskip])
      obtain ⟨s1, hs1, h1, hc1, hd1⟩ := submit_spec copy_result s
        (snprintf PATH_MAX src d_name) (snprintf PATH_MAX dst d_name) h
      rw [snprintf_fit src d_name hs, snprintf_fit dst d_name hd,
        strncpy_fit _ hs, strncpy_fit _ hd] at hc1
      rw [snprintf_fit src d_name hs, snprintf_fit dst d_name hd] at hs1
      obtain ⟨s2, hs2, h2, hc2, hd2⟩ := ih src dst s1 h1 hopen1 hfit1
      refine ⟨s2, ?_, h2, ?_, ?_⟩
      · simp [readdir_loop, hskip, snprintf_fit src d_name hs, snprintf_fit dst d_name hd,
          hs1, hs2]
      · rw [hc2, hc1]
        simp [rel_files, hskip, expected_task]
      · rw [hd2, hd1]
        simp [rel_dirs]
  | subdir d_name openable contents rest ihc ihr =>
    intro src dst s h hopen hfit
    simp only [all_openable, Bool.and_eq_true] at hopen
    obtain ⟨⟨ho, hoc⟩, hor⟩ := hopen
    subst ho
    by_cases hskip : d_name = "." ∨ d_name = ".."
    · have hfit1 : paths_fit src dst rest := by
        intro p hp
        exact hfit p (by simpa [rel_files, rel_dirs, hskip] using hp)
      simpa [readdir_loop, rel_files, rel_dirs, hskip] using ihr src dst s h hor hfit1
    · have hfit1 : paths_fit src dst rest := by
        intro p hp
        apply hfit p
        simp only [rel_files, rel_dirs, hskip, if_false, List.mem_append, List.mem_cons,
          List.mem_map] at hp ⊢
        tauto
      have hfitc : paths_fit (join_path src d_name) (join_path dst d_name) contents := by
        intro q hq
        have hmem : join_path d_name q ∈ rel_files (Dir.subdir d_name true contents rest) ++
            rel_dirs (Dir.subdir d_name true contents rest) := by
          simp only [rel_files, rel_dirs, hskip, if_false, List.mem_append, List.mem_cons,
            List.mem_map] at hq ⊢
          rcases hq with hq | hq
          · exact Or.inl (Or.inl ⟨q, hq, rfl⟩)
          · exact Or.inr (Or.inl (Or.inr ⟨q, hq, rfl⟩))
        have := hfit _ hmem
        rwa [← join_path_assoc, ← join_path_assoc] at this
      obtain ⟨hs, hd⟩ := hfit d_name (by simp [rel_dirs, hskip])
      obtain ⟨s1, hs1, h1, hc1, hd1⟩ := ihc (join_path src d_name) (join_path dst d_name)
        (mkdir s (join_path dst d_name)) (mkdir_inv h _) hoc hfitc
      obtain ⟨s2, hs2, h2, hc2, hd2⟩ := ihr src dst s1 h1 hor hfit1
      refine ⟨s2, ?_, h2, ?_, ?_⟩
      · simp [readdir_loop, hskip, snprintf_fit src d_name hs, snprintf_fit dst d_name hd,
          hs1, hs2]
      · rw [hc2, hc1]
        simp [rel_files, hskip, mkdir, expected_task, join_path_assoc, Function.comp_def]
      · rw [hd2, hd1]
        simp [rel_dirs, hskip, mkdir, join_path_assoc, Function.comp_def]

/-! ### The whole run -/

theorem main_spec (copy_result : Nat → CopyTask → Int × List String)
    (source destination : String) (openable : Bool) (d : Dir) :
    ∃ s1 s2, traverse_and_copy copy_result source destination openable d
        (main_start source destination) = some s1 ∧
      Sched.Inv copy_result s1 ∧
      main copy_result source destination openable d = some s2 ∧
      s2.running = [] ∧ s2.finished = s1.created.enum ∧ s2.created = s1.created ∧
      s2.dirs = s1.dirs ∧ s2.peak = s1.peak ∧ s2.submissions = s1.submissions ∧
      s2.total_files_copied = (s1.created.enum.filter (succeeded copy_result)).length := by
  obtain ⟨s1, hs1, h1⟩ := traverse_and_copy_inv copy_result source destination openable d
    (main_start source destination) (main_start_inv copy_result source destination)
  obtain ⟨s2, hs2, g1, g2, g3, g4, g5, g6, g7, g8, g9⟩ :=
    join_threads_spec copy_result s1.thread_count 0 s1.finished.length s1
      (by intro j hj; simpa using h1.slots j hj) h1.run_ids
  refine ⟨s1, { s2 with log := s2.log ++
      ["Total files copied: " ++ toString s2.total_files_copied ++ "\n",
       "Copy process completed.\n"] },
    hs1, h1, by simp only [main, hs1, hs2], g1, ?_, g5, g6, g7, g8, ?_⟩
  · show s2.finished = _
    rw [g2, h1.enum]
  · show s2.total_files_copied = _
    rw [g9, h1.total, ← h1.enum, List.filter_append, List.length_append]

theorem run_workers_total (copy_result : Nat → CopyTask → Int × List String) :
    ∀ (order : List (Nat × CopyTask)) (s : Sched),
      (run_workers copy_result order s).total_files_copied =
        s.total_files_copied + (order.filter (succeeded copy_result)).length := by
  intro order
  induction order with
  | nil => intro s; simp [run_workers]
  | cons p rest ih =>
    intro s
    obtain ⟨_, _, _, _, _, _, _, _, f9⟩ := thread_worker_fields copy_result p.1 p.2 s
    have := ih (thread_worker copy_result p.1 p.2 s)
    simp only [run_workers, List.foldl_cons] at this ⊢
    rw [this, f9]
    simp only [List.filter_cons, List.filter_nil]
    by_cases hs : succeeded copy_result p = true
    · simp [hs]; omega
    · simp [hs]

theorem stat_failure_returns_zero (fuel : Nat) (w : World) (source destination : String)
    (h : (sys_stat w source).2.1 ≠ 0) :
    ∃ w', copy_file fuel w source destination = some (w', 0) := by
  unfold copy_file
  generalize sys_stat w source = r at h
  obtain ⟨w1, rc, st_size⟩ := r
  simp only at h
  exact ⟨log_message w1 ("ERROR: Cannot stat file " ++ source ++ "\n"), by simp [h]⟩

theorem prune_openable : ∀ d : Dir, all_openable (prune d) = true := by
  intro d
  induction d with
  | done => rfl
  | file d_name rest ih => simpa [prune, all_openable] using ih
  | subdir d_name openable contents rest ihc ihr =>
    cases openable with
    | false => simpa [prune] using ihr
    | true => simp [prune, all_openable, ihc, ihr]

theorem readdir_loop_prune (copy_result : Nat → CopyTask → Int × List String) :
    ∀ (d : Dir) (source destination : String) (s : Sched),
      readdir_loop copy_result source destination d s =
        readdir_loop copy_result source destination (prune d) s := by
  intro d
  induction d with
  | done => intro source destination s; rfl
  | file d_name rest ih =>
    intro source destination s
    simp only [prune, readdir_loop]
    split
    · exact ih _ _ _
    · split
      · rfl
      · exact ih _ _ _
  | subdir d_name openable contents rest ihc ihr =>
    intro source destination s
    cases openable with
    | false =>
      simp only [prune, readdir_loop, if_true]
      split
      · exact ihr _ _ _
      · exact ihr _ _ _
    | true =>
      simp only [prune, readdir_loop, Bool.true_eq_false, if_false]
      split
      · exact ihr _ _ _
      · rw [ihc]
        split
        · rfl
        · exact ihr _ _ _

theorem main_prune (copy_result : Nat → CopyTask → Int × List String)
    (source destination : String) (openable : Bool) (d : Dir) :
    main copy_result source destination openable d =
      main copy_result source destination openable (prune d) := by
  cases openable with
  | false => simp [main, traverse_and_copy]
  | true => simp [main, traverse_and_copy, ← readdir_loop_prune]

theorem main_fit (copy_result : Nat → CopyTask → Int × List String)
    (src dst : String) (d : Dir) (hopen : all_openable d = true) (hfit : paths_fit src dst d) :
    ∃ s, main copy_result src dst true d = some s ∧
      s.created = (rel_files d).map (expected_task src dst) ∧
      s.dirs = dst :: (rel_dirs d).map (join_path dst) ∧
      s.finished = s.created.enum ∧ s.running = [] := by
  obtain ⟨s1, hs1, _, hc1, hd1⟩ := readdir_loop_fit copy_result d src dst
    (mkdir (main_start src dst) dst) (mkdir_inv (main_start_inv copy_result src dst) _) hopen hfit
  obtain ⟨t1, t2, ht1, _, ht2, g1, g2, g3, g4, _, _, _⟩ := main_spec copy_result src dst true d
  have : t1 = s1 := by
    have h := ht1
    simp only [traverse_and_copy, Bool.true_eq_false, if_false, hs1, Option.some.injEq] at h
    exact h.symm
  subst this
  refine ⟨t2, ht2, ?_, ?_, ?_, g1⟩
  · rw [g3, hc1]; simp [mkdir, main_start]
  · rw [g4, hd1]; simp [mkdir, main_start]
  · rw [g2, g3]

/-! ### Claims about the traversal and the batch -/

/-- C5. Counter correctness: `total_files_copied` starts at 0, and in the state
`main` reaches after the traversal and the final joins every submitted task has
been consumed by its worker, the counter equals the number of submitted tasks
whose copy returned non-zero, it does not exceed the number of tasks, and it is
the same for every order in which the workers make their locked increment. A
worker whose copy returned 0 leaves the counter unchanged, and `copy_file`
returns 0 when `stat` fails. -/
theorem C5_counter_correct (copy_result : Nat → CopyTask → Int × List String)
    (source destination : String) (openable : Bool) (d : Dir) :
    (main_start source destination).total_files_copied = 0 ∧
    (∃ s, main copy_result source destination openable d = some s ∧
      s.running = [] ∧ s.finished = s.created.enum ∧
      s.total_files_copied =
        (s.created.enum.filter (fun p => decide ((copy_result p.1 p.2).1 ≠ 0))).length ∧
      s.total_files_copied ≤ s.created.length ∧
      (∀ order : List (Nat × CopyTask), order.Perm s.created.enum →
        (run_workers copy_result order (main_start source destination)).total_files_copied =
          s.total_files_copied)) ∧
    (∀ (tid : Nat) (task : CopyTask) (s0 : Sched), (copy_result tid task).1 = 0 →
      (thread_worker copy_result tid task s0).total_files_copied = s0.total_files_copied) ∧
    (∀ (fuel : Nat) (w : World) (src dst : String), (sys_stat w src).2.1 ≠ 0 →
      ∃ w', copy_file fuel w src dst = some (w', 0)) := by
  refine ⟨rfl, ?_, ?_, ?_⟩
  · obtain ⟨s1, s2, _, _, h2, g1, g2, g3, _, _, _, g9⟩ :=
      main_spec copy_result source destination openable d
    have htotal : s2.total_files_copied =
        (s2.created.enum.filter (succeeded copy_result)).length := by rw [g9, g3]
    refine ⟨s2, h2, g1, by rw [g2, g3], htotal, ?_, ?_⟩
    · rw [htotal]
      calc (s2.created.enum.filter (succeeded copy_result)).length
          ≤ s2.created.enum.length := List.length_filter_le _ _
        _ = s2.created.length := List.enum_length
    · intro order hperm
      rw [run_workers_total, htotal, (hperm.filter _).length_eq]
      simp [main_start]
  · intro tid task s0 h0
    obtain ⟨_, _, _, _, _, _, _, _, f9⟩ := thread_worker_fields copy_result tid task s0
    rw [f9]
    simp [succeeded, h0]
  · intro fuel w src dst h
    exact stat_failure_returns_zero fuel w src dst h

/-- Witness for C5 on a tree of ten files where every second copy fails: the run
ends with the counter at 5 for 10 submitted tasks. -/
theorem C5_counter_correct_witness :
    (main even_succeeds "src" "dst" true tree_ten).map
        (fun s => (s.total_files_copied, s.created.length)) = some (5, 10) ∧
    ∃ s, main even_succeeds "src" "dst" true tree_ten = some s ∧
      s.total_files_copied =
        (s.created.enum.filter (fun p => decide ((even_succeeds p.1 p.2).1 ≠ 0))).length ∧
      s.total_files_copied ≤ s.created.length :=
  ⟨by decide,
    match (C5_counter_correct even_succeeds "src" "dst" true tree_ten).2.1 with
    | ⟨s, h1, _, _, h4, h5, _⟩ => ⟨s, h1, h4, h5⟩⟩

/-- C6. Batch bound: starting from `thread_count = 0` in `main`, the traversal of
any tree runs to its end without writing outside `threads[]` or joining an
invalid handle; the number of workers created and not yet joined never exceeded
`MAX_THREADS = 8`; every submission wrote an index below 8 and left
`thread_count` below 8 and equal to the number of workers still running; a
submission that wrote index 7 (count reaching 8) left no worker running and the
count at 0, and any other submission left the count one above the index. -/
theorem C6_batch_bound (copy_result : Nat → CopyTask → Int × List String)
    (source destination : String) (openable : Bool) (d : Dir) :
    MAX_THREADS = 8 ∧ (main_start source destination).thread_count = 0 ∧
    (main_start source destination).threads.length = MAX_THREADS ∧
    ∃ s, traverse_and_copy copy_result source destination openable d
        (main_start source destination) = some s ∧
      s.peak ≤ MAX_THREADS ∧ s.thread_count < MAX_THREADS ∧
      s.running.length = s.thread_count ∧ s.submissions.length = s.created.length ∧
      ∀ x ∈ s.submissions, x.index < MAX_THREADS ∧ x.count_after < MAX_THREADS ∧
        x.in_flight_after = x.count_after ∧
        (x.index + 1 = MAX_THREADS → x.count_after = 0 ∧ x.in_flight_after = 0) ∧
        (x.index + 1 < MAX_THREADS → x.count_after = x.index + 1) := by
  obtain ⟨s1, hs1, h1⟩ := traverse_and_copy_inv copy_result source destination openable d
    (main_start source destination) (main_start_inv copy_result source destination)
  refine ⟨rfl, rfl, by simp [main_start], s1, hs1, h1.peak_le, h1.count_lt,
    h1.created_length.2, h1.subs_len, ?_⟩
  intro x hx
  obtain ⟨a, b, c, e, f⟩ := h1.subs x hx
  exact ⟨a, b, c, fun h => ⟨e h, by rw [c, e h]⟩, f⟩

/-- Witness for C6 on a tree of ten files: ten submissions, the eighth of which
drains the batch, and a peak of eight running workers. -/
theorem C6_batch_bound_witness :
    (traverse_and_copy even_succeeds "src" "dst" true tree_ten (main_start "src" "dst")).map
        (fun s => (s.peak, s.thread_count, s.submissions.map (fun x => (x.index, x.count_after))))
      = some (8, 2, [(0, 1), (1, 2), (2, 3), (3, 4), (4, 5), (5, 6), (6, 7), (7, 0),
          (0, 1), (1, 2)]) ∧
    ∃ s, traverse_and_copy even_succeeds "src" "dst" true tree_ten (main_start "src" "dst")
        = some s ∧ s.peak ≤ MAX_THREADS ∧ s.thread_count < MAX_THREADS :=
  ⟨by decide,
    match (C6_batch_bound even_succeeds "src" "dst" true tree_ten).2.2.2 with
    | ⟨s, h1, h2, h3, _⟩ => ⟨s, h1, h2, h3⟩⟩

/-- C8. Unreadable source directory: when `opendir(source)` fails,
`traverse_and_copy` returns with the state exactly as it was (no `mkdir`, no
worker, no log line, `threads[]` and `thread_count` untouched). Hence inside a
readable directory an entry that is a directory that cannot be opened is passed
over and the entries after it are processed as if it were not there; the whole
run equals the run on the tree without its unopenable directories, and when the
paths of that tree fit, the tasks and the directories created are exactly those
of that tree. -/
theorem C8_unopenable_directory (copy_result : Nat → CopyTask → Int × List String)
    (source destination : String) (d : Dir) (s : Sched) :
    traverse_and_copy copy_result source destination false d s = some s ∧
    (∀ (d_name : String) (contents rest : Dir),
      readdir_loop copy_result source destination (Dir.subdir d_name false contents rest) s =
        readdir_loop copy_result source destination rest s) ∧
    traverse_and_copy copy_result source destination true d s =
      traverse_and_copy copy_result source destination true (prune d) s ∧
    main copy_result source destination true d =
      main copy_result source destination true (prune d) ∧
    all_openable (prune d) = true ∧
    (paths_fit source destination (prune d) →
      ∃ s', main copy_result source destination true d = some s' ∧
        s'.created = (rel_files (prune d)).map (expected_task source destination) ∧
        s'.dirs = destination :: (rel_dirs (prune d)).map (join_path destination)) := by
  refine ⟨by simp [traverse_and_copy], ?_, ?_, main_prune _ _ _ _ _, prune_openable d, ?_⟩
  · intro d_name contents rest
    simp only [readdir_loop, if_true]
    split <;> rfl
  · simp [traverse_and_copy, ← readdir_loop_prune]
  · intro hfit
    obtain ⟨s', hs', hc, hd, _, _⟩ :=
      main_fit copy_result source destination (prune d) (prune_openable d) hfit
    exact ⟨s', by rw [main_prune, hs'], hc, hd⟩

/-- Witness for C8: a readable root holding `a`, an unopenable directory `locked`
and `b`. The run creates only `dst` and copies `a` and `b`. -/
theorem C8_unopenable_directory_witness :
    paths_fit "src" "dst" (prune tree_locked) ∧
    (main even_succeeds "src" "dst" true tree_locked).map (fun s => (s.dirs, s.created)) =
      some (["dst"], [{ source := "src/a", destination := "dst/a" },
        { source := "src/b", destination := "dst/b" }]) ∧
    traverse_and_copy even_succeeds "src" "dst" false tree_locked (main_start "src" "dst") =
      some (main_start "src" "dst") :=
  ⟨by decide, by decide,
    (C8_unopenable_directory even_succeeds "src" "dst" tree_locked (main_start "src" "dst")).1⟩

/-! ### The traversal on a tree on disk -/

theorem as_seen_of_stat_ok (fresh : Bool) :
    ∀ (disk : Disk) (info : Bool), disk_stat_ok disk = true →
      rel_files (as_seen fresh info disk) = disk_rel_files disk ∧
      rel_dirs (as_seen fresh info disk) = disk_rel_dirs disk ∧
      all_openable (as_seen fresh info disk) = disk_all_openable disk := by
  intro disk
  induction disk with
  | done => intro info _; exact ⟨rfl, rfl, rfl⟩
  | other d_name stat_ok rest ih =>
    intro info h
    simp only [disk_stat_ok, Bool.and_eq_true] at h
    obtain ⟨hok, hrest⟩ := h
    subst hok
    by_cases hskip : d_name = "." ∨ d_name = ".."
    · obtain ⟨h1, h2, h3⟩ := ih info hrest
      simp [as_seen, rel_files, rel_dirs, all_openable, disk_rel_files, disk_rel_dirs,
        disk_all_openable, hskip, h1, h2, h3]
    · obtain ⟨h1, h2, h3⟩ := ih false hrest
      simp [as_seen, rel_files, rel_dirs, all_openable, disk_rel_files, disk_rel_dirs,
        disk_all_openable, hskip, h1, h2, h3]
  | directory d_name stat_ok openable contents rest ihc ihr =>
    intro info h
    simp only [disk_stat_ok, Bool.and_eq_true] at h
    obtain ⟨⟨hok, hcont⟩, hrest⟩ := h
    subst hok
    obtain ⟨c1, c2, c3⟩ := ihc fresh hcont
    by_cases hskip : d_name = "." ∨ d_name = ".."
    · obtain ⟨h1, h2, h3⟩ := ihr info hrest
      simp [as_seen, rel_files, rel_dirs, all_openable, disk_rel_files, disk_rel_dirs,
        disk_all_openable, hskip, h1, h2, h3, c1, c2, c3]
    · obtain ⟨h1, h2, h3⟩ := ihr true hrest
      simp [as_seen, rel_files, rel_dirs, all_openable, disk_rel_files, disk_rel_dirs,
        disk_all_openable, hskip, h1, h2, h3, c1, c2, c3]

/-- When `stat` succeeds on every entry, every directory can be opened and every
joined path is shorter than `PATH_MAX`, the run ends, the tasks given to workers
are, in walk order, exactly one per entry on disk that is not a directory, at
relative path `p`, with source `src/p` and destination `dst/p`; `mkdir` is called
for `dst` and for `dst/p` for every directory at relative path `p`; and every
task has been consumed by the one worker created for it. -/
theorem coverage_when_stat_succeeds (copy_result : Nat → CopyTask → Int × List String)
    (fresh : Bool) (src dst : String) (disk : Disk) (hstat : disk_stat_ok disk = true)
    (hopen : disk_all_openable disk = true) (hfit : disk_paths_fit src dst disk) :
    ∃ s, main copy_result src dst true (as_seen fresh fresh disk) = some s ∧
      s.created = (disk_rel_files disk).map
        (fun p => { source := src ++ "/" ++ p, destination := dst ++ "/" ++ p }) ∧
      s.created.length = (disk_rel_files disk).length ∧
      s.dirs = dst :: (disk_rel_dirs disk).map (fun p => dst ++ "/" ++ p) ∧
      s.finished = s.created.enum ∧ s.running = [] := by
  obtain ⟨h1, h2, h3⟩ := as_seen_of_stat_ok fresh disk fresh hstat
  have hfit' : paths_fit src dst (as_seen fresh fresh disk) := by
    intro p hp
    rw [h1, h2] at hp
    exact hfit p hp
  obtain ⟨s, hs, hc, hd, hf, hr⟩ :=
    main_fit copy_result src dst (as_seen fresh fresh disk) (by rw [h3]; exact hopen) hfit'
  rw [h1] at hc
  rw [h2] at hd
  exact ⟨s, hs, hc, by rw [hc, List.length_map], hd, hf, hr⟩

/-- C10, evaluated where the code departs from the claim. The source directory
holds an empty directory `d4` followed by a symbolic link `l` that leads
nowhere: every directory can be opened, every joined path is shorter than
`PATH_MAX`, and `l` is the one entry that is not a directory. `stat` fails on
`l`, its return value is not checked, `S_ISDIR` reads the mode `stat` left for
`d4`, the traversal calls itself on `src/l`, `opendir` fails, and the run ends
with no worker created, whatever the buffer held at the start. -/
theorem C10_stat_failure_drops_entry :
    disk_all_openable disk_dangling = true ∧ disk_paths_fit "src" "dst" disk_dangling ∧
    disk_rel_files disk_dangling = ["l"] ∧ disk_rel_dirs disk_dangling = ["d4"] ∧
    as_seen false false disk_dangling =
      Dir.subdir "d4" true Dir.done (Dir.subdir "l" false Dir.done Dir.done) ∧
    as_seen true true disk_dangling =
      Dir.subdir "d4" true Dir.done (Dir.subdir "l" false Dir.done Dir.done) ∧
    (main even_succeeds "src" "dst" true (as_seen false false disk_dangling)).map
        (fun s => (s.created, s.dirs)) = some ([], ["dst", "dst/d4"]) ∧
    (main even_succeeds "src" "dst" true (as_seen true true disk_dangling)).map
        (fun s => (s.created, s.dirs)) = some ([], ["dst", "dst/d4"]) := by
  decide

/-! ### The descriptor table -/

theorem fd_lookup_nat (fds : List (Option OpenFile)) (k : Nat) :
    fd_lookup fds (k : Int) = (fds[k]?).getD none := by
  simp [fd_lookup]

theorem lookup_lowest_free : ∀ fds : List (Option OpenFile),
    (fds[lowest_free fds]?).getD none = none := by
  intro fds
  induction fds with
  | nil => simp [lowest_free]
  | cons x rest ih =>
    cases x with
    | none => simp [lowest_free]
    | some g => simpa [lowest_free] using ih

theorem lookup_install (f : OpenFile) : ∀ (fds : List (Option OpenFile)) (k : Nat),
    ((install f fds)[k]?).getD none =
      if k = lowest_free fds then some f else (fds[k]?).getD none := by
  intro fds
  induction fds with
  | nil =>
    intro k
    cases k <;> simp [install, lowest_free]
  | cons x rest ih =>
    intro k
    cases x with
    | none => cases k <;> simp [install, lowest_free]
    | some g =>
      cases k with
      | zero => simp [install, lowest_free]
      | succ k => simpa [install, lowest_free] using ih k

theorem lowest_free_install_ne (f : OpenFile) (fds : List (Option OpenFile)) :
    lowest_free (install f fds) ≠ lowest_free fds := by
  intro h
  have h1 := lookup_lowest_free (install f fds)
  rw [h, lookup_install] at h1
  simp at h1

theorem fd_lookup_valid {fds : List (Option OpenFile)} {fd : Int} {o : OpenFile}
    (h : fd_lookup fds fd = some o) : 0 ≤ fd ∧ fd.toNat < fds.length := by
  unfold fd_lookup at h
  by_cases hneg : fd < 0
  · simp [hneg] at h
  · refine ⟨by omega, ?_⟩
    by_contra hlen
    have : fds[fd.toNat]? = none := List.getElem?_eq_none (by omega)
    simp [hneg, this] at h

theorem fd_lookup_set {fds : List (Option OpenFile)} {k : Int} {o : OpenFile}
    (h : fd_lookup fds k = some o) (x : Option OpenFile) (fd : Int) :
    fd_lookup (fds.set k.toNat x) fd = if fd = k then x else fd_lookup fds fd := by
  obtain ⟨hk, hlen⟩ := fd_lookup_valid h
  by_cases hfd : fd = k
  · subst hfd
    have : ¬ fd < 0 := by omega
    simp [fd_lookup, this, List.getElem?_set_self hlen]
  · unfold fd_lookup
    by_cases hneg : fd < 0
    · simp [hneg, hfd]
    · have hne : k.toNat ≠ fd.toNat := by omega
      simp [hneg, hfd, List.getElem?_set_ne hne]

/-! ### System calls, step by step -/

theorem pwrite_length_ge (content : Bytes) (off : Nat) (data : Bytes) :
    content.length ≤ (pwrite content off data).length := by
  simp only [pwrite, List.length_append, List.length_take, List.length_replicate,
    List.length_drop]
  omega

theorem pwrite_at_end (content data : Bytes) :
    pwrite content content.length data = content ++ data := by
  simp [pwrite]

theorem sys_sendfile_fail (w : World) (out_fd in_fd : Int) (offset count : Nat)
    (h : w.oracle w.clock = Outcome.fail) :
    sys_sendfile w out_fd in_fd offset count = ({ w with clock := w.clock + 1 }, -1, offset) := by
  simp [sys_sendfile, h]

theorem sys_sendfile_ok (w : World) (out_fd in_fd : Int) (offset count : Nat) (i o : OpenFile)
    (h : w.oracle w.clock ≠ Outcome.fail) (hi : fd_lookup w.fds in_fd = some i)
    (ho : fd_lookup w.fds out_fd = some o) :
    sys_sendfile w out_fd in_fd offset count =
      ({ w with
          clock := w.clock + 1,
          files := fun p =>
            if p = o.path then
              some (pwrite ((w.files o.path).getD []) o.offset
                ((((w.files i.path).getD []).drop offset).take ((w.oracle w.clock).limit count)))
            else w.files p,
          fds := w.fds.set out_fd.toNat (some { o with offset := o.offset +
            ((((w.files i.path).getD []).drop offset).take
              ((w.oracle w.clock).limit count)).length }) },
        (((((w.files i.path).getD []).drop offset).take
          ((w.oracle w.clock).limit count)).length : Int),
        offset + ((((w.files i.path).getD []).drop offset).take
          ((w.oracle w.clock).limit count)).length) := by
  unfold sys_sendfile
  cases hor : w.oracle w.clock with
  | fail => exact absurd hor h
  | ok => simp [hi, ho]
  | upTo k => simp [hi, ho]

/-! ### The loop of the bulk transfer -/

theorem sendfile_loop_spec (src_fd dest_fd : Int) (n : Nat) :
    ∀ (fuel : Nat) (w : World) (offset : Nat),
      (∃ i o, fd_lookup w.fds src_fd = some i ∧ fd_lookup w.fds dest_fd = some o ∧
        n ≤ ((w.files i.path).getD []).length) →
      (∀ j, w.clock ≤ j → w.oracle j ≠ Outcome.upTo 0) →
      offset ≤ n → n - offset < fuel →
      ∃ w' off r, sendfile_loop src_fd dest_fd n fuel w offset = some (w', off, r) ∧
        w'.oracle = w.oracle ∧ w.clock ≤ w'.clock ∧ w'.clock - w.clock ≤ n - offset ∧
        (∀ j, w.clock ≤ j → j + 1 < w'.clock → w.oracle j ≠ Outcome.fail) ∧
        (r = true → off = n ∧ ∀ j, w.clock ≤ j → j < w'.clock → w.oracle j ≠ Outcome.fail) ∧
        (r = false → w.clock < w'.clock ∧ w.oracle (w'.clock - 1) = Outcome.fail) := by
  intro fuel
  induction fuel with
  | zero => intro w offset _ _ _ hfuel; omega
  | succ fuel ih =>
    intro w offset hready hprog hoff hfuel
    by_cases hlt : offset < n
    · by_cases hfail : w.oracle w.clock = Outcome.fail
      · refine ⟨{ w with clock := w.clock + 1 }, offset, false, ?_, rfl, ?_, ?_, ?_, ?_, ?_⟩
        · simp [sendfile_loop, hlt, sys_sendfile_fail w dest_fd src_fd offset (n - offset) hfail]
        · show w.clock ≤ w.clock + 1
          omega
        · show w.clock + 1 - w.clock ≤ n - offset
          omega
        · intro j h1 h2
          have : j + 1 < w.clock + 1 := h2
          omega
        · intro h; cases h
        · intro _
          refine ⟨Nat.lt_succ_self _, ?_⟩
          show w.oracle (w.clock + 1 - 1) = Outcome.fail
          simpa using hfail
      · obtain ⟨i, o, hi, ho, hsize⟩ := hready
        have hstep := sys_sendfile_ok w dest_fd src_fd offset (n - offset) i o hfail hi ho
        generalize hdata : (((w.files i.path).getD []).drop offset).take
          ((w.oracle w.clock).limit (n - offset)) = data at hstep
        have hlen1 : 1 ≤ data.length ∧ data.length ≤ n - offset := by
          rw [← hdata]
          simp only [List.length_take, List.length_drop]
          have hlim : 1 ≤ (w.oracle w.clock).limit (n - offset) ∧
              (w.oracle w.clock).limit (n - offset) ≤ n - offset := by
            cases hor : w.oracle w.clock with
            | fail => exact absurd hor hfail
            | ok => simp only [Outcome.limit]; omega
            | upTo k =>
              have hk : k ≠ 0 := by
                intro hk
                subst hk
                exact hprog w.clock (Nat.le_refl _) hor
              simp only [Outcome.limit]
              omega
          omega
        generalize hw1 : ({ w with
          clock := w.clock + 1,
          files := fun p =>
            if p = o.path then some (pwrite ((w.files o.path).getD []) o.offset data)
            else w.files p,
          fds := w.fds.set dest_fd.toNat (some { o with offset := o.offset + data.length }) }
            : World) = w1 at hstep
        have hw1o : w1.oracle = w.oracle := by rw [← hw1]
        have hw1c : w1.clock = w.clock + 1 := by rw [← hw1]
        have hready1 : ∃ i o, fd_lookup w1.fds src_fd = some i ∧
            fd_lookup w1.fds dest_fd = some o ∧ n ≤ ((w1.files i.path).getD []).length := by
          have hfds : w1.fds = w.fds.set dest_fd.toNat
              (some { o with offset := o.offset + data.length }) := by rw [← hw1]
          have hfiles : w1.files = fun p =>
              if p = o.path then some (pwrite ((w.files o.path).getD []) o.offset data)
              else w.files p := by rw [← hw1]
          have hsize1 : n ≤ ((w1.files i.path).getD []).length := by
            rw [hfiles]
            by_cases hp : i.path = o.path
            · simp only [hp, if_true, Option.getD_some]
              rw [hp] at hsize
              exact Nat.le_trans hsize (pwrite_length_ge _ _ _)
            · simp only [hp, if_false]
              exact hsize
          by_cases hsame : src_fd = dest_fd
          · have hio : i = o := by
              rw [hsame, ho] at hi
              exact (Option.some.inj hi).symm
            refine ⟨{ o with offset := o.offset + data.length },
              { o with offset := o.offset + data.length }, ?_, ?_, ?_⟩
            · rw [hfds, fd_lookup_set ho, if_pos hsame]
            · rw [hfds, fd_lookup_set ho, if_pos rfl]
            · rw [← hio]; exact hsize1
          · refine ⟨i, { o with offset := o.offset + data.length }, ?_, ?_, hsize1⟩
            · rw [hfds, fd_lookup_set ho, if_neg hsame, hi]
            · rw [hfds, fd_lookup_set ho, if_pos rfl]
        obtain ⟨w', off, r, hrun, g1, g2, g3, g4, g5, g6⟩ :=
          ih w1 (offset + data.length) hready1
            (by intro j hj; rw [hw1o]; exact hprog j (by omega))
            (by omega) (by omega)
        rw [hw1o] at g1 g4 g5 g6
        rw [hw1c] at g2 g3 g4 g5 g6
        refine ⟨w', off, r, ?_, g1, by omega, by omega, ?_, ?_, ?_⟩
        · have hnn : ¬ ((data.length : Int) < 0) := by omega
          simp [sendfile_loop, hlt, hstep, hnn, hrun]
        · intro j h1 h2
          by_cases hj : j = w.clock
          · rw [hj]; exact hfail
          · exact g4 j (by omega) h2
        · intro hr
          refine ⟨(g5 hr).1, ?_⟩
          intro j h1 h2
          by_cases hj : j = w.clock
          · rw [hj]; exact hfail
          · exact (g5 hr).2 j (by omega) h2
        · intro hr
          exact ⟨by omega, (g6 hr).2⟩
    · refine ⟨w, offset, true, ?_, rfl, Nat.le_refl _, by omega, ?_, ?_, ?_⟩
      · simp [sendfile_loop, hlt]
      · intro j h1 h2; omega
      · intro _
        exact ⟨by omega, fun j h1 h2 => by omega⟩
      · intro h; cases h

/-! ### Opening the two files -/

theorem opens_ok (w : World) (source destination : String) (bytes : Bytes)
    (hsrc : w.files source = some bytes) (h1 : w.oracle w.clock ≠ Outcome.fail)
    (h2 : w.oracle (w.clock + 1) ≠ Outcome.fail) :
    ∃ w1 w2 src_fd dest_fd, sys_open_rdonly w source = (w1, src_fd) ∧
      sys_open_creat_trunc w1 destination = (w2, dest_fd) ∧
      ¬ (src_fd < 0 ∨ dest_fd < 0) ∧ src_fd ≠ dest_fd ∧
      fd_lookup w2.fds src_fd = some { path := source, offset := 0 } ∧
      fd_lookup w2.fds dest_fd = some { path := destination, offset := 0 } ∧
      w2.files = (fun p => if p = destination then some [] else w.files p) ∧
      w2.oracle = w.oracle ∧ w2.clock = w.clock + 2 ∧ w2.log = w.log := by
  have e1 : sys_open_rdonly w source =
      ({ w with clock := w.clock + 1, fds := install { path := source, offset := 0 } w.fds },
        (lowest_free w.fds : Int)) := by
    unfold sys_open_rdonly
    cases hor : w.oracle w.clock with
    | fail => exact absurd hor h1
    | ok => simp [hsrc]
    | upTo k => simp [hsrc]
  have e2 : sys_open_creat_trunc
      { w with clock := w.clock + 1, fds := install { path := source, offset := 0 } w.fds }
      destination =
      ({ w with
          clock := w.clock + 1 + 1,
          files := fun p => if p = destination then some [] else w.files p,
          fds := install { path := destination, offset := 0 }
            (install { path := source, offset := 0 } w.fds) },
        (lowest_free (install { path := source, offset := 0 } w.fds) : Int)) := by
    unfold sys_open_creat_trunc
    cases hor : w.oracle (w.clock + 1) with
    | fail => exact absurd hor h2
    | ok => simp [hor]
    | upTo k => simp [hor]
  have hne := lowest_free_install_ne { path := source, offset := 0 } w.fds
  refine ⟨_, _, _, _, e1, e2, by omega, by omega, ?_, ?_, rfl, rfl, rfl, rfl⟩
  · rw [fd_lookup_nat]
    show ((install _ (install _ w.fds))[lowest_free w.fds]?).getD none = _
    rw [lookup_install, if_neg (Ne.symm hne), lookup_install, if_pos rfl]
  · rw [fd_lookup_nat]
    show ((install _ (install _ w.fds))[lowest_free (install _ w.fds)]?).getD none = _
    rw [lookup_install, if_pos rfl]

theorem sys_close_fields (w : World) (fd : Int) :
    (sys_close w fd).files = w.files ∧ (sys_close w fd).oracle = w.oracle ∧
    (sys_close w fd).clock = w.clock ∧ (sys_close w fd).log = w.log := by
  unfold sys_close
  split <;> exact ⟨rfl, rfl, rfl, rfl⟩

/-- C9. The loop of the bulk transfer. The source exists, both opens succeed,
and no `sendfile` call returns without moving a byte (each one either fails or
advances the offset by at least one and at most the remaining bytes); `n` is
the source size `fstat` reports, and the clock counts the `sendfile` calls,
which are the only fallible calls after the two opens. Then with fuel above the
size the loop ends and `copy_file_sendfile` returns; at most `n` calls are
made; the result is 1 exactly when no call failed, and then the final offset is
`n`; when a call fails it is the last one made and the result is 0; for `n = 0`
no call is made and the result is 1. -/
theorem C9_bulk_loop (fuel : Nat) (w : World) (source destination : String) (bytes : Bytes)
    (hsrc : w.files source = some bytes)
    (hopen1 : w.oracle w.clock ≠ Outcome.fail)
    (hopen2 : w.oracle (w.clock + 1) ≠ Outcome.fail)
    (hprog : ∀ j, w.clock + 2 ≤ j → w.oracle j ≠ Outcome.upTo 0)
    (hfuel : bytes.length < fuel) :
    ∃ w1 w2 src_fd dest_fd n w3 off r w4,
      sys_open_rdonly w source = (w1, src_fd) ∧
      sys_open_creat_trunc w1 destination = (w2, dest_fd) ∧
      sys_fstat_size w2 src_fd = n ∧
      n = (if source = destination then 0 else bytes.length) ∧
      sendfile_loop src_fd dest_fd n fuel w2 0 = some (w3, off, r) ∧
      copy_file_sendfile fuel w source destination = some (w4, if r = true then 1 else 0) ∧
      w2.clock = w.clock + 2 ∧ w4.clock = w3.clock ∧ w.clock + 2 ≤ w4.clock ∧
      w4.clock - (w.clock + 2) ≤ n ∧
      (r = true ↔ ∀ j, w.clock + 2 ≤ j → j < w4.clock → w.oracle j ≠ Outcome.fail) ∧
      (r = true → off = n) ∧
      (r = false → w.clock + 2 < w4.clock ∧ w.oracle (w4.clock - 1) = Outcome.fail ∧
        ∀ j, w.clock + 2 ≤ j → j + 1 < w4.clock → w.oracle j ≠ Outcome.fail) ∧
      (n = 0 → w4.clock = w.clock + 2 ∧ r = true) := by
  obtain ⟨w1, w2, src_fd, dest_fd, e1, e2, hfd, hfdne, hl1, hl2, hfiles, hor, hclk, hlog⟩ :=
    opens_ok w source destination bytes hsrc hopen1 hopen2
  have hsize : sys_fstat_size w2 src_fd = (if source = destination then 0 else bytes.length) := by
    by_cases h : source = destination
    · simp [sys_fstat_size, hl1, hfiles, h]
    · simp [sys_fstat_size, hl1, hfiles, h, hsrc]
  have hle : (if source = destination then 0 else bytes.length) ≤ bytes.length := by
    by_cases h : source = destination <;> simp [h]
  generalize (if source = destination then 0 else bytes.length) = n at hsize hle
  have hsz : n ≤ ((w2.files source).getD []).length := by
    have : sys_fstat_size w2 src_fd = ((w2.files source).getD []).length := by
      simp [sys_fstat_size, hl1]
    omega
  obtain ⟨w3, off, r, hrun, g1, g2, g3, g4, g5, g6⟩ :=
    sendfile_loop_spec src_fd dest_fd n fuel w2 0
      ⟨_, _, hl1, hl2, hsz⟩
      (by intro j hj; rw [hor]; exact hprog j (by omega))
      (Nat.zero_le _) (by omega)
  rw [hor] at g1 g4 g5 g6
  rw [hclk] at g2 g3 g4 g5 g6
  have hrun' := hrun
  rw [← hsize] at hrun'
  cases r with
  | true =>
    refine ⟨w1, w2, src_fd, dest_fd, n, w3, off, true,
      log_message (sys_close (sys_close w3 src_fd) dest_fd)
        ("INFO: File copied using sendfile: " ++ source ++ " -> " ++ destination ++ "\n"),
      e1, e2, hsize, ?_, hrun, ?_, hclk, ?_, ?_, ?_, ?_, ?_, ?_, ?_⟩
    · rfl
    · simp [copy_file_sendfile, e1, e2, hfd, hrun']
    · simp [log_message, (sys_close_fields _ _).2.2.1]
    · simp [log_message, (sys_close_fields _ _).2.2.1]; omega
    · simp [log_message, (sys_close_fields _ _).2.2.1]; omega
    · simp only [log_message, (sys_close_fields _ _).2.2.1, true_iff]
      exact (g5 rfl).2
    · intro _; exact (g5 rfl).1
    · intro h; cases h
    · intro h0
      refine ⟨?_, rfl⟩
      simp only [log_message, (sys_close_fields _ _).2.2.1]
      omega
  | false =>
    obtain ⟨h61, h62⟩ := g6 rfl
    refine ⟨w1, w2, src_fd, dest_fd, n, w3, off, false,
      sys_close (sys_close (log_message w3
        ("ERROR: sendfile failed: " ++ source ++ " -> " ++ destination ++ "\n")) src_fd) dest_fd,
      e1, e2, hsize, ?_, hrun, ?_, hclk, ?_, ?_, ?_, ?_, ?_, ?_, ?_⟩
    · rfl
    · simp [copy_file_sendfile, e1, e2, hfd, hrun']
    · simp [log_message, (sys_close_fields _ _).2.2.1]
    · simp [log_message, (sys_close_fields _ _).2.2.1]; omega
    · simp [log_message, (sys_close_fields _ _).2.2.1]; omega
    · simp only [log_message, (sys_close_fields _ _).2.2.1]
      constructor
      · intro h; cases h
      · intro hall
        exact absurd h62 (hall (w3.clock - 1) (by omega) (by omega))
    · intro h; cases h
    · intro _
      simp only [log_message, (sys_close_fields _ _).2.2.1]
      exact ⟨h61, h62, g4⟩
    · intro h0
      omega

/-! ### The strategies when every call succeeds -/

theorem sys_read_ok (w : World) (fd : Int) (count : Nat) (f : OpenFile)
    (h : w.oracle w.clock = Outcome.ok) (hf : fd_lookup w.fds fd = some f) :
    sys_read w fd count =
      ({ w with
          clock := w.clock + 1,
          fds := w.fds.set fd.toNat (some { f with offset := f.offset +
            ((((w.files f.path).getD []).drop f.offset).take count).length }) },
        (((((w.files f.path).getD []).drop f.offset).take count).length : Int),
        (((w.files f.path).getD []).drop f.offset).take count) := by
  simp [sys_read, h, hf, Outcome.limit]

theorem sys_write_ok (w : World) (fd : Int) (buffer : Bytes) (f : OpenFile)
    (h : w.oracle w.clock = Outcome.ok) (hf : fd_lookup w.fds fd = some f) :
    sys_write w fd buffer =
      ({ w with
          clock := w.clock + 1,
          files := fun p =>
            if p = f.path then some (pwrite ((w.files f.path).getD []) f.offset buffer)
            else w.files p,
          fds := w.fds.set fd.toNat (some { f with offset := f.offset + buffer.length }) },
        (buffer.length : Int)) := by
  simp [sys_write, h, hf, Outcome.limit]

theorem take_chunk (bytes : Bytes) (pos count : Nat) (hpos : pos ≤ bytes.length) :
    pwrite (bytes.take pos) pos ((bytes.drop pos).take count) =
      bytes.take (pos + ((bytes.drop pos).take count).length) := by
  have hl : (bytes.take pos).length = pos := by simp [hpos]
  have h1 : pwrite (bytes.take pos) pos ((bytes.drop pos).take count) =
      bytes.take pos ++ (bytes.drop pos).take count := by
    have := pwrite_at_end (bytes.take pos) ((bytes.drop pos).take count)
    rwa [hl] at this
  rw [h1, List.take_add]
  congr 1
  simp only [List.length_take, List.length_drop]
  by_cases hc : count ≤ bytes.length - pos
  · rw [Nat.min_eq_left hc]
  · have hc' : bytes.length - pos ≤ count := by omega
    rw [Nat.min_eq_right hc']
    have e1 : (bytes.drop pos).take (bytes.length - pos) = bytes.drop pos :=
      List.take_of_length_le (by simp)
    have e2 : (bytes.drop pos).take count = bytes.drop pos :=
      List.take_of_length_le (by simp only [List.length_drop]; exact hc')
    rw [e1, e2]

theorem aio_loop_all_ok (src_fd dest_fd : Int) (src dst : String) (bytes : Bytes)
    (hfd : src_fd ≠ dest_fd) :
    ∀ (fuel : Nat) (w : World) (pos : Nat),
      (∀ j, w.oracle j = Outcome.ok) →
      fd_lookup w.fds src_fd = some { path := src, offset := pos } →
      fd_lookup w.fds dest_fd = some { path := dst, offset := pos } →
      w.files src = some bytes → w.files dst = some (bytes.take pos) →
      pos ≤ bytes.length → bytes.length - pos < fuel →
      ∃ w', aio_loop src_fd dest_fd fuel w = some (w', true) ∧
        w'.files = (fun p => if p = dst then some bytes else w.files p) ∧
        w'.oracle = w.oracle := by
  intro fuel
  induction fuel with
  | zero => intro w pos _ _ _ _ _ _ hfuel; omega
  | succ fuel ih =>
    intro w pos hok hs hd hfs hfd' hpos hfuel
    have hread := sys_read_ok w src_fd BUFFER_SIZE _ (hok _) hs
    simp only [hfs, Option.getD_some] at hread
    have hdl : ((bytes.drop pos).take BUFFER_SIZE).length = min BUFFER_SIZE (bytes.length - pos) := by
      simp
    generalize hdata : (bytes.drop pos).take BUFFER_SIZE = data at hread hdl
    generalize hw1 : ({ w with
        clock := w.clock + 1,
        fds := w.fds.set src_fd.toNat (some { path := src, offset := pos + data.length }) }
          : World) = w1 at hread
    have hw1files : w1.files = w.files := by rw [← hw1]
    have hw1or : w1.oracle = w.oracle := by rw [← hw1]
    have hw1fds : w1.fds = w.fds.set src_fd.toNat
        (some { path := src, offset := pos + data.length }) := by rw [← hw1]
    have hB : BUFFER_SIZE = 65536 := rfl
    by_cases hzero : data.length = 0
    · refine ⟨w1, ?_, ?_, hw1or⟩
      · simp [aio_loop, hread, hzero]
      · rw [hw1files]
        funext p
        by_cases hp : p = dst
        · subst hp
          have : bytes.take pos = bytes := List.take_of_length_le (by omega)
          simp [hfd', this]
        · simp [hp]
    · have hne : src ≠ dst := by
        intro h
        rw [h, hfd'] at hfs
        have hl := congrArg List.length (Option.some.inj hfs)
        simp only [List.length_take] at hl
        omega
      have hs1 : fd_lookup w1.fds src_fd = some { path := src, offset := pos + data.length } := by
        rw [hw1fds, fd_lookup_set hs, if_pos rfl]
      have hd1 : fd_lookup w1.fds dest_fd = some { path := dst, offset := pos } := by
        rw [hw1fds, fd_lookup_set hs, if_neg (Ne.symm hfd), hd]
      have hwrite := sys_write_ok w1 dest_fd data _ (by rw [hw1or]; exact hok _) hd1
      simp only [hw1files, hfd', Option.getD_some] at hwrite
      have hchunk : pwrite (bytes.take pos) pos data = bytes.take (pos + data.length) := by
        rw [← hdata]
        exact take_chunk bytes pos BUFFER_SIZE hpos
      rw [hchunk] at hwrite
      generalize hw2 : ({ w1 with
          clock := w1.clock + 1,
          files := fun p => if p = dst then some (bytes.take (pos + data.length)) else w.files p,
          fds := w1.fds.set dest_fd.toNat (some { path := dst, offset := pos + data.length }) }
            : World) = w2 at hwrite
      have hw2files : w2.files = fun p =>
          if p = dst then some (bytes.take (pos + data.length)) else w.files p := by rw [← hw2]
      have hw2or : w2.oracle = w.oracle := by rw [← hw2]; exact hw1or
      have hw2fds : w2.fds = w1.fds.set dest_fd.toNat
          (some { path := dst, offset := pos + data.length }) := by rw [← hw2]
      obtain ⟨w', hrun, hf', ho'⟩ := ih w2 (pos + data.length)
        (by intro j; rw [hw2or]; exact hok j)
        (by rw [hw2fds, fd_lookup_set hd1, if_neg hfd, hs1])
        (by rw [hw2fds, fd_lookup_set hd1, if_pos rfl])
        (by rw [hw2files]; simp [hne, hfs])
        (by rw [hw2files]; simp)
        (by omega) (by omega)
      refine ⟨w', ?_, ?_, by rw [ho', hw2or]⟩
      · have hpos' : (data.length : Int) > 0 := by omega
        simp [aio_loop, hread, hpos', hwrite, hrun]
      · rw [hf', hw2files]
        funext p
        by_cases hp : p = dst <;> simp [hp]

theorem copy_file_aio_all_ok (fuel : Nat) (w : World) (src dst : String) (bytes : Bytes)
    (hsrc : w.files src = some bytes) (hok : ∀ j, w.oracle j = Outcome.ok)
    (hfuel : bytes.length < fuel) :
    ∃ w', copy_file_aio fuel w src dst = some (w', 1) ∧
      w'.files = (fun p => if p = dst then some (if src = dst then [] else bytes)
        else w.files p) ∧
      w'.oracle = w.oracle := by
  obtain ⟨w1, w2, src_fd, dest_fd, e1, e2, hfd, hfdne, hl1, hl2, hfiles, hor, _, _⟩ :=
    opens_ok w src dst bytes hsrc (by rw [hok]; simp) (by rw [hok]; simp)
  have hsf : w2.files src = some (if src = dst then [] else bytes) := by
    rw [hfiles]
    by_cases h : src = dst <;> simp [h, hsrc]
  have hlen : (if src = dst then [] else bytes).length ≤ bytes.length := by
    by_cases h : src = dst <;> simp [h]
  generalize (if src = dst then [] else bytes) = kept at hsf hlen
  obtain ⟨w3, hrun, hf3, ho3⟩ := aio_loop_all_ok src_fd dest_fd src dst kept hfdne fuel w2 0
    (by intro j; rw [hor]; exact hok j) hl1 hl2 hsf (by rw [hfiles]; simp)
    (Nat.zero_le _) (by omega)
  refine ⟨log_message (sys_close (sys_close w3 src_fd) dest_fd)
    ("INFO: File copied using AIO (basic): " ++ src ++ " -> " ++ dst ++ "\n"), ?_, ?_, ?_⟩
  · simp [copy_file_aio, e1, e2, hfd, hrun]
  · simp only [log_message, (sys_close_fields _ _).1, hf3, hfiles]
    funext p
    by_cases hp : p = dst <;> simp [hp]
  · simp only [log_message, (sys_close_fields _ _).2.1, ho3, hor]

theorem copy_file_sendfile_all_ok (fuel : Nat) (w : World) (src dst : String) (bytes : Bytes)
    (hsrc : w.files src = some bytes) (hok : ∀ j, w.oracle j = Outcome.ok)
    (hfuel : bytes.length < fuel) :
    ∃ w', copy_file_sendfile fuel w src dst = some (w', 1) ∧
      w'.files = (fun p => if p = dst then some (if src = dst then [] else bytes)
        else w.files p) ∧
      w'.oracle = w.oracle := by
  obtain ⟨w1, w2, src_fd, dest_fd, e1, e2, hfd, hfdne, hl1, hl2, hfiles, hor, _, _⟩ :=
    opens_ok w src dst bytes hsrc (by rw [hok]; simp) (by rw [hok]; simp)
  have hsf : w2.files src = some (if src = dst then [] else bytes) := by
    rw [hfiles]
    by_cases h : src = dst <;> simp [h, hsrc]
  have hlen : (if src = dst then [] else bytes).length ≤ bytes.length := by
    by_cases h : src = dst <;> simp [h]
  generalize (if src = dst then [] else bytes) = kept at hsf hlen
  have hdf : w2.files dst = some [] := by rw [hfiles]; simp
  have hsize : sys_fstat_size w2 src_fd = kept.length := by
    simp [sys_fstat_size, hl1, hsf]
  have hloop : ∃ w3, sendfile_loop src_fd dest_fd kept.length fuel w2 0
        = some (w3, kept.length, true) ∧
      w3.files = (fun p => if p = dst then some kept else w.files p) ∧
      w3.oracle = w.oracle := by
    by_cases hzero : kept.length = 0
    · obtain ⟨f, rfl⟩ : ∃ f, fuel = f + 1 := ⟨fuel - 1, by omega⟩
      refine ⟨w2, by simp [sendfile_loop, hzero], ?_, hor⟩
      have hb : kept = [] := List.length_eq_zero.mp hzero
      rw [hfiles, hb]
    · obtain ⟨f, rfl⟩ : ∃ f, fuel = f + 2 := ⟨fuel - 2, by omega⟩
      have hstep := sys_sendfile_ok w2 dest_fd src_fd 0 (kept.length - 0)
        { path := src, offset := 0 } { path := dst, offset := 0 }
        (by rw [hor, hok]; simp) hl1 hl2
      have hlim : (w2.oracle w2.clock).limit (kept.length - 0) = kept.length := by
        rw [hor, hok]; rfl
      simp only [hsf, hdf, hlim, Option.getD_some, List.drop_zero, List.take_length,
        Nat.zero_add] at hstep
      have hpw : pwrite [] 0 kept = kept := by simp [pwrite]
      rw [hpw] at hstep
      refine ⟨(sys_sendfile w2 dest_fd src_fd 0 (kept.length - 0)).1, ?_, ?_, ?_⟩
      · have hpos : 0 < kept.length := by omega
        have hnn : ¬ ((kept.length : Int) < 0) := by omega
        simp only [sendfile_loop, hpos, if_true, hstep, hnn, if_false, Nat.lt_irrefl]
      · simp only [hstep, hfiles]
        funext p
        by_cases hp : p = dst <;> simp [hp]
      · simp only [hstep]
        exact hor
  obtain ⟨w3, hrun, hf3, ho3⟩ := hloop
  rw [← hsize] at hrun
  refine ⟨log_message (sys_close (sys_close w3 src_fd) dest_fd)
    ("INFO: File copied using sendfile: " ++ src ++ " -> " ++ dst ++ "\n"), ?_, ?_, ?_⟩
  · simp [copy_file_sendfile, e1, e2, hfd, hrun]
  · simp only [log_message, (sys_close_fields _ _).1, hf3]
  · simp only [log_message, (sys_close_fields _ _).2.1, ho3]

theorem copy_file_mmap_not_mapped (w : World) (src dst : String) (bytes : Bytes)
    (hsrc : w.files src = some bytes) (hok : ∀ j, w.oracle j = Outcome.ok)
    (h : src = dst ∨ bytes = []) :
    (copy_file_mmap w src dst).2 = 0 := by
  obtain ⟨w1, w2, src_fd, dest_fd, e1, e2, hfd, hfdne, hl1, hl2, hfiles, hor, _, _⟩ :=
    opens_ok w src dst bytes hsrc (by rw [hok]; simp) (by rw [hok]; simp)
  have hsize : sys_fstat_size w2 src_fd = 0 := by
    rcases h with h | h
    · simp [sys_fstat_size, hl1, hfiles, h]
    · by_cases hp : src = dst
      · simp [sys_fstat_size, hl1, hfiles, hp]
      · simp [sys_fstat_size, hl1, hfiles, hp, hsrc, h]
  simp [copy_file_mmap, e1, e2, hfd, hsize, sys_ftruncate, hl2, sys_mmap, hl1, hor, hok]

theorem copy_file_mmap_all_ok (w : World) (src dst : String) (bytes : Bytes)
    (hsrc : w.files src = some bytes) (hne : src ≠ dst) (hok : ∀ j, w.oracle j = Outcome.ok)
    (hpos : bytes ≠ []) :
    ∃ w', copy_file_mmap w src dst = (w', 1) ∧
      w'.files = (fun p => if p = dst then some bytes else w.files p) ∧
      w'.oracle = w.oracle := by
  obtain ⟨w1, w2, src_fd, dest_fd, e1, e2, hfd, hfdne, hl1, hl2, hfiles, hor, _, _⟩ :=
    opens_ok w src dst bytes hsrc (by rw [hok]; simp) (by rw [hok]; simp)
  have hsize : sys_fstat_size w2 src_fd = bytes.length := by
    simp [sys_fstat_size, hl1, hfiles, hne, hsrc]
  have hlen : 0 < bytes.length := List.length_pos.mpr hpos
  have hsf : w2.files src = some bytes := by rw [hfiles]; simp [hne, hsrc]
  have hdf : w2.files dst = some [] := by rw [hfiles]; simp
  have hne' : dst ≠ src := Ne.symm hne
  have hform : ∃ w6, copy_file_mmap w src dst =
        (log_message (sys_close (sys_close w6 src_fd) dest_fd)
          ("INFO: File copied using mmap: " ++ src ++ " -> " ++ dst ++ "\n"), 1) ∧
      w6.files = (fun p => if p = dst then some bytes else w.files p) ∧
      w6.oracle = w.oracle := by
    simp only [copy_file_mmap, e1, e2, hfd, if_false, hsize, sys_ftruncate, hl2, sys_mmap,
      hl1, hor, hok, hlen, decide_True, map_memcpy, hdf, Option.getD_some,
      Bool.true_eq_false, or_self]
    refine ⟨_, rfl, ?_, rfl⟩
    funext p
    by_cases hp : p = dst
    · subst hp
      simp [hsf, hne', hne]
    · simp [hp, hfiles]
  obtain ⟨w6, hrun, hf6, ho6⟩ := hform
  refine ⟨_, hrun, ?_, ?_⟩
  · simp only [log_message, (sys_close_fields _ _).1, hf6]
  · simp only [log_message, (sys_close_fields _ _).2.1, ho6]

/-! ### Claims about the strategies -/

/-- C1. Strategy selection: when `stat` on the source succeeds with size `s`,
`copy_file` is exactly the run of one strategy on the state `stat` left, result
and effects unchanged: `copy_file_sendfile` when `s > 104857600`,
`copy_file_mmap` when `65536 < s ≤ 104857600`, `copy_file_aio` when
`s ≤ 65536` (also for `s = 0`). The four boundary sizes are spelled out. -/
theorem C1_strategy_selection (fuel : Nat) (w w1 : World) (source destination : String)
    (s : Nat) (hstat : sys_stat w source = (w1, 0, s)) :
    (s > 104857600 →
      copy_file fuel w source destination = copy_file_sendfile fuel w1 source destination) ∧
    (65536 < s ∧ s ≤ 104857600 →
      copy_file fuel w source destination = some (copy_file_mmap w1 source destination)) ∧
    (s ≤ 65536 →
      copy_file fuel w source destination = copy_file_aio fuel w1 source destination) ∧
    (s = 0 → copy_file fuel w source destination = copy_file_aio fuel w1 source destination) ∧
    (s = 65536 →
      copy_file fuel w source destination = copy_file_aio fuel w1 source destination) ∧
    (s = 65537 →
      copy_file fuel w source destination = some (copy_file_mmap w1 source destination)) ∧
    (s = 104857600 →
      copy_file fuel w source destination = some (copy_file_mmap w1 source destination)) ∧
    (s = 104857601 →
      copy_file fuel w source destination = copy_file_sendfile fuel w1 source destination) := by
  have hL : LARGE_FILE_SIZE = 104857600 := rfl
  have hB : BUFFER_SIZE = 65536 := rfl
  have bulk : s > 104857600 →
      copy_file fuel w source destination = copy_file_sendfile fuel w1 source destination := by
    intro h
    have h1 : s > LARGE_FILE_SIZE := by omega
    simp [copy_file, hstat, h1]
  have mapped : 65536 < s ∧ s ≤ 104857600 →
      copy_file fuel w source destination = some (copy_file_mmap w1 source destination) := by
    intro h
    have h1 : ¬ s > LARGE_FILE_SIZE := by omega
    have h2 : s > BUFFER_SIZE := by omega
    simp [copy_file, hstat, h1, h2]
  have buffered : s ≤ 65536 →
      copy_file fuel w source destination = copy_file_aio fuel w1 source destination := by
    intro h
    have h1 : ¬ s > LARGE_FILE_SIZE := by omega
    have h2 : ¬ s > BUFFER_SIZE := by omega
    simp [copy_file, hstat, h1, h2]
  exact ⟨bulk, mapped, buffered, fun h => buffered (by omega), fun h => buffered (by omega),
    fun h => mapped (by omega), fun h => mapped (by omega), fun h => bulk (by omega)⟩

/-- Witness for C1: a source of 65537 bytes is copied by `copy_file_mmap`. -/
theorem C1_strategy_selection_witness :
    sys_stat world_medium "a" = ({ world_medium with clock := 1 }, 0, 65537) ∧
    copy_file 1 world_medium "a" "b" =
      some (copy_file_mmap { world_medium with clock := 1 } "a" "b") :=
  have hstat : sys_stat world_medium "a" = ({ world_medium with clock := 1 }, 0, 65537) := by
    simp only [sys_stat, world_medium, if_true, List.length_replicate]
  ⟨hstat, (C1_strategy_selection 1 world_medium { world_medium with clock := 1 } "a" "b" 65537
    hstat).2.1 ⟨by decide, by decide⟩⟩

/-- C7. Truncate-overwrite and idempotence: every call succeeds and the source
holds `bytes`. The buffered and the bulk strategy return 1; the mapped one
returns 1 for a non-empty source on a path other than the destination. After
any run that returned 1 the destination content equals the source content;
when the two paths differ the file system is the old one except that the
destination, whatever it held before (nothing, or content of any length),
holds exactly `bytes`; and a second run from the state the first one left
returns 1 again and leaves the file system unchanged. -/
theorem C7_truncate_overwrite (fuel : Nat) (w : World) (source destination : String)
    (bytes : Bytes) (hsrc : w.files source = some bytes)
    (hok : ∀ j, w.oracle j = Outcome.ok) (hfuel : bytes.length < fuel) :
    (∃ w1 w2, copy_file_aio fuel w source destination = some (w1, 1) ∧
      w1.files destination = w1.files source ∧
      (source ≠ destination →
        w1.files = (fun p => if p = destination then some bytes else w.files p)) ∧
      copy_file_aio fuel w1 source destination = some (w2, 1) ∧ w2.files = w1.files) ∧
    (∃ w1 w2, copy_file_sendfile fuel w source destination = some (w1, 1) ∧
      w1.files destination = w1.files source ∧
      (source ≠ destination →
        w1.files = (fun p => if p = destination then some bytes else w.files p)) ∧
      copy_file_sendfile fuel w1 source destination = some (w2, 1) ∧ w2.files = w1.files) ∧
    (source ≠ destination → bytes ≠ [] →
      ∃ w1, copy_file_mmap w source destination = (w1, 1)) ∧
    (∀ w1, copy_file_mmap w source destination = (w1, 1) →
      w1.files destination = w1.files source ∧
      (source ≠ destination →
        w1.files = (fun p => if p = destination then some bytes else w.files p)) ∧
      ∃ w2, copy_file_mmap w1 source destination = (w2, 1) ∧ w2.files = w1.files) := by
  have hlen : (if source = destination then [] else bytes).length ≤ bytes.length := by
    by_cases h : source = destination <;> simp [h]
  have same : ∀ (w1 : World),
      w1.files = (fun p => if p = destination
        then some (if source = destination then [] else bytes) else w.files p) →
      w1.files source = some (if source = destination then [] else bytes) ∧
      w1.files destination = w1.files source ∧
      (source ≠ destination →
        w1.files = (fun p => if p = destination then some bytes else w.files p)) := by
    intro w1 h1
    have hs : w1.files source = some (if source = destination then [] else bytes) := by
      rw [h1]
      by_cases h : source = destination <;> simp [h, hsrc]
    refine ⟨hs, ?_, ?_⟩
    · rw [hs, h1]; simp
    · intro hne; rw [h1]; simp [hne]
  have again : ∀ (w1 w2 : World),
      w1.files = (fun p => if p = destination
        then some (if source = destination then [] else bytes) else w.files p) →
      w2.files = (fun p => if p = destination
        then some (if source = destination then []
          else (if source = destination then [] else bytes)) else w1.files p) →
      w2.files = w1.files := by
    intro w1 w2 h1 h2
    rw [h2, h1]
    funext p
    by_cases hp : p = destination
    · by_cases h : source = destination <;> simp [hp, h]
    · simp [hp]
  refine ⟨?_, ?_, ?_, ?_⟩
  · obtain ⟨w1, hr1, hf1, ho1⟩ :=
      copy_file_aio_all_ok fuel w source destination bytes hsrc hok hfuel
    obtain ⟨hs1, heq1, hupd1⟩ := same w1 hf1
    obtain ⟨w2, hr2, hf2, _⟩ :=
      copy_file_aio_all_ok fuel w1 source destination _ hs1
        (by intro j; rw [ho1]; exact hok j) (by omega)
    exact ⟨w1, w2, hr1, heq1, hupd1, hr2, again w1 w2 hf1 hf2⟩
  · obtain ⟨w1, hr1, hf1, ho1⟩ :=
      copy_file_sendfile_all_ok fuel w source destination bytes hsrc hok hfuel
    obtain ⟨hs1, heq1, hupd1⟩ := same w1 hf1
    obtain ⟨w2, hr2, hf2, _⟩ :=
      copy_file_sendfile_all_ok fuel w1 source destination _ hs1
        (by intro j; rw [ho1]; exact hok j) (by omega)
    exact ⟨w1, w2, hr1, heq1, hupd1, hr2, again w1 w2 hf1 hf2⟩
  · intro hne hpos
    obtain ⟨w1, hr1, _, _⟩ :=
      copy_file_mmap_all_ok w source destination bytes hsrc hne hok hpos
    exact ⟨w1, hr1⟩
  · intro w1 hr
    by_cases hbad : source = destination ∨ bytes = []
    · have h0 := copy_file_mmap_not_mapped w source destination bytes hsrc hok hbad
      rw [hr] at h0
      have h1 : (1 : Int) = 0 := h0
      exact absurd h1 (by decide)
    · have hne : source ≠ destination := fun h => hbad (Or.inl h)
      have hpos : bytes ≠ [] := fun h => hbad (Or.inr h)
      obtain ⟨w1', hr1, hf1, ho1⟩ :=
        copy_file_mmap_all_ok w source destination bytes hsrc hne hok hpos
      have hw : w1 = w1' := by
        rw [hr] at hr1
        exact congrArg Prod.fst hr1
      subst hw
      have hs1 : w1.files source = some bytes := by rw [hf1]; simp [hne, hsrc]
      obtain ⟨w2, hr2, hf2, _⟩ :=
        copy_file_mmap_all_ok w1 source destination bytes hs1 hne
          (by intro j; rw [ho1]; exact hok j) hpos
      refine ⟨?_, fun _ => hf1, w2, hr2, ?_⟩
      · rw [hs1, hf1]; simp
      · rw [hf2, hf1]
        funext p
        by_cases hp : p = destination <;> simp [hp]

/-- Witness for C7: a three-byte source over a five-byte stale destination. -/
theorem C7_truncate_overwrite_witness :
    world_all_ok.files "a" = some [1, 2, 3] ∧ world_all_ok.files "b" = some [9, 9, 9, 9, 9] ∧
    (copy_file_aio 4 world_all_ok "a" "b").map (fun r => (r.2, r.1.files "b")) =
      some (1, some [1, 2, 3]) ∧
    ∃ w1 w2, copy_file_aio 4 world_all_ok "a" "b" = some (w1, 1) ∧
      w1.files "b" = w1.files "a" ∧
      ("a" ≠ "b" →
        w1.files = (fun p => if p = "b" then some [1, 2, 3] else world_all_ok.files p)) ∧
      copy_file_aio 4 w1 "a" "b" = some (w2, 1) ∧ w2.files = w1.files :=
  ⟨by decide, by decide, by decide,
    (C7_truncate_overwrite 4 world_all_ok "a" "b" [1, 2, 3] (by decide)
      (fun _ => rfl) (by decide)).1⟩

/-- Witness for C9: five bytes sent in three calls of two, one and two bytes. -/
theorem C9_bulk_loop_witness :
    (copy_file_sendfile 6 world_short_sends "a" "b").map
        (fun r => (r.2, r.1.clock, r.1.files "b")) = some (1, 5, some [1, 2, 3, 4, 5]) ∧
    ∃ w4 r, copy_file_sendfile 6 world_short_sends "a" "b"
        = some (w4, if r = true then 1 else 0) ∧
      w4.clock - (world_short_sends.clock + 2) ≤ 5 := by
  refine ⟨by decide, ?_⟩
  obtain ⟨_, _, _, _, n, _, _, r, w4, _, _, _, hn, _, h5, _, _, _, h9, _⟩ :=
    C9_bulk_loop 6 world_short_sends "a" "b" [1, 2, 3, 4, 5] (by decide) (by decide)
      (by decide)
      (fun j _ => by
        show (if j = 2 then Outcome.upTo 2 else if j = 3 then Outcome.upTo 1
          else Outcome.ok) ≠ Outcome.upTo 0
        split
        · simp
        · split <;> simp)
      (by decide)
  have hn5 : n = 5 := by rw [hn]; decide
  exact ⟨w4, r, h5, by omega⟩

/-- C3, evaluated where the code departs from the claim: both opens succeed and
the first `read` returns `-1`, yet `copy_file_aio` returns 1 and logs that the
file was copied. -/
theorem C3_read_error_returns_success :
    (∃ w1 w2, sys_open_rdonly world_read_error "a" = (w1, 0) ∧
      sys_open_creat_trunc w1 "b" = (w2, 1) ∧ (sys_read w2 0 BUFFER_SIZE).2.1 = -1) ∧
    (copy_file_aio 5 world_read_error "a" "b").map (fun r => (r.2, r.1.log)) =
      some (1, ["INFO: File copied using AIO (basic): a -> b\n"]) :=
  ⟨⟨_, _, rfl, rfl, by decide⟩, by decide⟩

/-- C2, evaluated where the code departs from the claim: the second `read` fails
after two of the three source bytes were copied; `copy_file_aio` returns 1 and
the destination holds two bytes while the source holds three. -/
theorem C2_success_with_short_destination :
    (copy_file_aio 5 world_read_error_midway "a" "b").map
        (fun r => (r.2, r.1.files "a", r.1.files "b")) =
      some (1, some [1, 2, 3], some [1, 2]) := by
  decide

/-- C4, evaluated where the code departs from the claim: with no descriptor
open at the call, each strategy returns 0 with descriptor 0 (the source) still
open when the `open` of the destination fails, and `copy_file_mmap` returns 0
with descriptors 0 and 1 still open when a mapping fails. -/
theorem C4_descriptors_left_open :
    open_fds world_dest_open_fails.fds = [] ∧ open_fds world_mmap_fails.fds = [] ∧
    (copy_file_sendfile 5 world_dest_open_fails "a" "b").map
        (fun r => (r.2, open_fds r.1.fds)) = some (0, [0]) ∧
    (copy_file_aio 5 world_dest_open_fails "a" "b").map
        (fun r => (r.2, open_fds r.1.fds)) = some (0, [0]) ∧
    ((copy_file_mmap world_dest_open_fails "a" "b").2,
      open_fds (copy_file_mmap world_dest_open_fails "a" "b").1.fds) = (0, [0]) ∧
    ((copy_file_mmap world_mmap_fails "a" "b").2,
      open_fds (copy_file_mmap world_mmap_fails "a" "b").1.fds) = (0, [0, 1]) := by
  decide

end FastCopy
